import Mathlib

/-!
Verification of the TerraForge Studio terrain-generation core against its
natural-language specification.

The development shallowly embeds the Python modules
`realworldmapgen/core/queue_manager.py`, `realworldmapgen/core/cache_manager.py`,
`realworldmapgen/core/terrain_generator.py`, `realworldmapgen/models.py` and
`realworldmapgen/api/batch_routes.py`.  Python floats are modelled as exact
rationals (inputs) and real numbers (derived analytic quantities such as areas
and trigonometric terms); Python dicts are modelled as insertion-ordered
association lists, matching CPython's ordered-dict semantics; `datetime.now()`
is modelled by a logical clock carried in the state and bumped once per
operation that reads the wall clock; `uuid.uuid4()` is modelled by a
caller-supplied fresh identifier.
-/

set_option maxHeartbeats 1000000

/-! ## Geometry: `models.py`, class `BoundingBox` -/

/-- `BoundingBox` from `models.py`: four float coordinates in degrees,
modelled as exact rationals. -/
structure BoundingBox where
  north : ℚ
  south : ℚ
  east : ℚ
  west : ℚ
deriving DecidableEq, Repr

/-- `BoundingBox.area_km2` from `models.py`:
`abs(lat_diff * lon_diff * cos(radians(avg_lat)) * 111.32 * 111.32)`,
with `lat_diff = north - south`, `lon_diff = east - west`,
`avg_lat = (north + south) / 2` and `radians(x) = x * pi / 180`. -/
noncomputable def area_km2 (b : BoundingBox) : ℝ :=
  |((b.north : ℝ) - (b.south : ℝ)) * ((b.east : ℝ) - (b.west : ℝ)) *
    Real.cos (((b.north : ℝ) + (b.south : ℝ)) / 2 * Real.pi / 180) * 111.32 * 111.32|

/-- The mirror of a bounding box with `north` and `south` swapped. -/
def swapNorthSouth (b : BoundingBox) : BoundingBox :=
  { north := b.south, south := b.north, east := b.east, west := b.west }

/-- The mirror of a bounding box with `east` and `west` swapped. -/
def swapEastWest (b : BoundingBox) : BoundingBox :=
  { north := b.north, south := b.south, east := b.west, west := b.east }

/-! ## Cache fingerprint: `cache_manager.py`, `TerrainCacheManager.generate_cache_key` -/

/-- Python's `round` to an integer: round-half-to-even (banker's rounding),
modelled exactly on rationals. -/
def pyRoundHalfEven (x : ℚ) : ℤ :=
  let f : ℤ := ⌊x⌋
  let r : ℚ := x - (f : ℚ)
  if r < 1/2 then f
  else if 1/2 < r then f + 1
  else if Even f then f else f + 1

/-- Python's `round(x, 6)`: round to the nearest multiple of `1e-6`. -/
def pyround6 (x : ℚ) : ℚ :=
  ((pyRoundHalfEven (x * 1000000) : ℚ)) / 1000000

/-- Python's `sorted` on strings (stable, lexicographic on code points),
modelled by insertion sort for the linear order on `String`. -/
def sortedStrings (l : List String) : List String :=
  List.insertionSort (· ≤ ·) l

/-- The `"bbox"` part of the `cache_input` dict built by
`generate_cache_key`: each coordinate passed through `round(_, 6)`. -/
structure CacheKeyBbox where
  north : ℚ
  south : ℚ
  east : ℚ
  west : ℚ
deriving DecidableEq, Repr

/-- The `config` dict handed to `generate_cache_key`, with a field per key the
function reads via `config.get(...)`; `none` models an absent key. -/
structure ConfigDict where
  resolution : Option Nat
  exportFormats : Option (List String)
  elevationSource : Option String
  enableRoads : Option Bool
  enableBuildings : Option Bool
  enableWeightmaps : Option Bool
  enableVegetation : Option Bool
  enableWaterBodies : Option Bool
deriving DecidableEq, Repr

/-- The `"config"` part of the `cache_input` dict built by
`generate_cache_key`. -/
structure CacheKeyConfig where
  resolution : Option Nat
  exportFormats : List String
  elevationSource : Option String
  enableRoads : Option Bool
  enableBuildings : Option Bool
  enableWeightmaps : Option Bool
  enableVegetation : Bool
  enableWaterBodies : Bool
deriving DecidableEq, Repr

/-- The `cache_input` value whose canonical JSON serialization
(`json.dumps(_, sort_keys=True)`) is hashed with SHA-256 by
`generate_cache_key`.  Serialization with sorted keys is injective on this
structure and SHA-256 is a fixed function of the serialized string, so two
keys are equal exactly when the two `CacheKeyInput` values are equal (up to
hash collisions, which the spec's content-addressing discipline excludes). -/
structure CacheKeyInput where
  bbox : CacheKeyBbox
  config : CacheKeyConfig
deriving DecidableEq, Repr

/-- `TerrainCacheManager.generate_cache_key` from `cache_manager.py`, up to the
final SHA-256 step (see `CacheKeyInput`): rounds each bbox coordinate with
`round(_, 6)` (default `0` for a missing key is not modelled: callers always
pass full bboxes), sorts `export_formats`, and reads the remaining config keys
with their `dict.get` defaults (`enable_vegetation`/`enable_water_bodies`
default to `True`, the rest to `None`). -/
def generate_cache_key (bbox : BoundingBox) (config : ConfigDict) : CacheKeyInput :=
  { bbox :=
      { north := pyround6 bbox.north
        south := pyround6 bbox.south
        east := pyround6 bbox.east
        west := pyround6 bbox.west }
    config :=
      { resolution := config.resolution
        exportFormats := sortedStrings (config.exportFormats.getD [])
        elevationSource := config.elevationSource
        enableRoads := config.enableRoads
        enableBuildings := config.enableBuildings
        enableWeightmaps := config.enableWeightmaps
        enableVegetation := config.enableVegetation.getD true
        enableWaterBodies := config.enableWaterBodies.getD true } }

/-! ## Cache store: `cache_manager.py`, `TerrainCacheManager` index operations

The on-disk side effects (copytree, rmtree, stat) are not modelled; the claims
under study are about the metadata index (`self.metadata`), which the source
mutates unconditionally on the success path.  `entries` is the insertion-ordered
dict `metadata["entries"]`, `totalSize` the counter `metadata["total_size"]`. -/

/-- One value of `metadata["entries"]`: path, size, created, last_accessed,
access_count.  Timestamps are logical clock readings (ISO timestamps compare
like their generation times). -/
structure CacheEntry where
  path : String
  size : Nat
  created : Nat
  lastAccessed : Nat
  accessCount : Nat
deriving DecidableEq, Repr

/-- The mutable state of `TerrainCacheManager`. -/
structure CacheState where
  maxCacheSize : Nat
  entries : List (String × CacheEntry)
  totalSize : Nat
  clock : Nat
deriving DecidableEq, Repr

/-- Sum of `size` over the live index entries (the quantity bounded by the
spec's eviction invariant). -/
def sumSizes (l : List (String × CacheEntry)) : Nat :=
  (l.map (fun p => p.2.size)).sum

/-- `TerrainCacheManager.invalidate_cache`: delete the entry (a no-op when the
key is absent) and decrement the size counter, clamped at zero
(`max(0, total - size)` is exactly truncated `Nat` subtraction). -/
def invalidate_cache (s : CacheState) (key : String) : CacheState :=
  match s.entries.lookup key with
  | none => s
  | some e =>
      { s with
        entries := s.entries.filter (fun p => !(p.1 == key))
        totalSize := s.totalSize - e.size }

/-- `sorted(entries.items(), key=lambda x: x[1]["last_accessed"])`: Python's
stable sort, modelled by stable insertion sort on `last_accessed`. -/
def sortByLastAccessed (l : List (String × CacheEntry)) : List (String × CacheEntry) :=
  List.insertionSort (fun a b => a.2.lastAccessed ≤ b.2.lastAccessed) l

/-- The loop body of `TerrainCacheManager._evict_old_entries`: walk the
snapshot of entries in ascending `last_accessed` order, stopping as soon as
`freed_space >= needed_space`, invalidating each entry walked over and adding
its (snapshot) size to `freed_space`. -/
def evictLoop (needed : Nat) : List (String × CacheEntry) → Nat → CacheState → CacheState
  | [], _, s => s
  | (k, e) :: rest, freed, s =>
      if needed ≤ freed then s
      else evictLoop needed rest (freed + e.size) (invalidate_cache s k)

/-- `TerrainCacheManager._evict_old_entries`. -/
def evict_old_entries (s : CacheState) (neededSpace : Nat) : CacheState :=
  evictLoop neededSpace (sortByLastAccessed s.entries) 0 s

/-- The keys `_evict_old_entries` removes: the shortest prefix of the entries
sorted by ascending `last_accessed` whose accumulated size reaches the
requested space (all of them when the whole cache is too small). -/
def evictTaken (needed : Nat) : List (String × CacheEntry) → Nat → List (String × CacheEntry)
  | [], _ => []
  | (k, e) :: rest, freed =>
      if needed ≤ freed then []
      else (k, e) :: evictTaken needed rest (freed + e.size)

/-- Assignment `dict[key] = entry` on an insertion-ordered dict: replace in
place when the key exists, append otherwise. -/
def upsertEntry (l : List (String × CacheEntry)) (key : String) (e : CacheEntry) :
    List (String × CacheEntry) :=
  if l.any (fun p => p.1 == key) then l.map (fun p => if p.1 = key then (p.1, e) else p)
  else l ++ [(key, e)]

/-- `TerrainCacheManager.store_result` (metadata effects of the success path):
read `current_size` *before* eviction, evict when `current_size + result_size`
exceeds the budget, insert the new entry, and write back
`total_size := current_size + result_size` — the stale pre-eviction reading,
exactly as the source does. -/
def store_result (s : CacheState) (key : String) (resultSize : Nat) : CacheState :=
  let currentSize := s.totalSize
  let s1 := if s.maxCacheSize < currentSize + resultSize
            then evict_old_entries s resultSize else s
  let entry : CacheEntry :=
    { path := "cache/" ++ key, size := resultSize, created := s1.clock
      lastAccessed := s1.clock, accessCount := 0 }
  { s1 with
    entries := upsertEntry s1.entries key entry
    totalSize := currentSize + resultSize
    clock := s1.clock + 1 }

/-- An empty cache with the given byte budget. -/
def emptyCache (maxSize : Nat) : CacheState :=
  { maxCacheSize := maxSize, entries := [], totalSize := 0, clock := 0 }

/-- Key uniqueness: what a Python dict guarantees for `metadata["entries"]`. -/
def KeysNodup (l : List (String × CacheEntry)) : Prop :=
  (l.map Prod.fst).Nodup

/-- The index invariant: the live entries fit the budget, the `total_size`
counter never undercounts them (it may overcount after key replacement or
after the stale write-back in `store_result`), and keys are unique. -/
def CacheInv (s : CacheState) : Prop :=
  sumSizes s.entries ≤ s.maxCacheSize ∧ sumSizes s.entries ≤ s.totalSize ∧
    KeysNodup s.entries

/-! ## Request model: `models.py` -/

/-- `ExportFormat` from `models.py` (note the `obj` member alongside the four
engine formats and the `all` wildcard). -/
inductive ExportFormat
  | unreal5 | unity | gltf | geotiff | obj | all
deriving DecidableEq, Repr

/-- The `.value` string of an `ExportFormat` member. -/
def ExportFormat.value : ExportFormat → String
  | .unreal5 => "unreal5"
  | .unity => "unity"
  | .gltf => "gltf"
  | .geotiff => "geotiff"
  | .obj => "obj"
  | .all => "all"

/-- `ElevationSource` from `models.py`. -/
inductive ElevationSource
  | srtm | opentopography | sentinelhub | azureMaps | auto
deriving DecidableEq, Repr

/-- The `.value` string of an `ElevationSource` member. -/
def ElevationSource.value : ElevationSource → String
  | .srtm => "srtm"
  | .opentopography => "opentopography"
  | .sentinelhub => "sentinelhub"
  | .azureMaps => "azure_maps"
  | .auto => "auto"

/-- `MapGenerationRequest` from `models.py`. -/
structure MapGenerationRequest where
  bbox : BoundingBox
  name : String
  resolution : Nat
  exportFormats : List ExportFormat
  elevationSource : ElevationSource
  enableAiAnalysis : Bool
  enableRoads : Bool
  enableBuildings : Bool
  enableVegetation : Bool
  enableWaterBodies : Bool
  enableWeightmaps : Bool
  enable3dPreview : Bool
deriving DecidableEq, Repr

/-! ## Batch queue: `queue_manager.py`, `BatchQueueManager` -/

/-- `JobStatus` from `queue_manager.py`. -/
inductive JobStatus
  | pending | processing | completed | failed | cancelled
deriving DecidableEq, Repr

/-- `BatchJob` from `queue_manager.py`.  `result` is the serialized result
dict; timestamps are logical clock readings. -/
structure BatchJob where
  id : String
  name : String
  request : MapGenerationRequest
  status : JobStatus
  progress : ℚ
  error : Option String
  result : Option String
  createdAt : Nat
  startedAt : Option Nat
  completedAt : Option Nat
  priority : Int
deriving DecidableEq, Repr

/-- The mutable state of `BatchQueueManager`: the `jobs` dict (insertion
ordered), the `queue` list of job ids, and the `active_jobs` set (kept as a
duplicate-free list; only membership and cardinality are ever used). -/
structure QueueState where
  maxConcurrent : Nat
  maxQueueSize : Nat
  jobs : List (String × BatchJob)
  queue : List String
  activeJobs : List String
  clock : Nat
deriving DecidableEq, Repr

/-- A fresh `BatchQueueManager(max_concurrent, max_queue_size)`. -/
def initQueue (maxConcurrent maxQueueSize : Nat) : QueueState :=
  { maxConcurrent := maxConcurrent, maxQueueSize := maxQueueSize
    jobs := [], queue := [], activeJobs := [], clock := 0 }

/-- In-place mutation of the job object stored under `id` (Python mutates the
shared `BatchJob`; the dict keeps its position). -/
def updateJobMap (jobs : List (String × BatchJob)) (id : String) (f : BatchJob → BatchJob) :
    List (String × BatchJob) :=
  jobs.map (fun p => if p.1 = id then (p.1, f p.2) else p)

/-- `self.jobs[existing_id].priority` as used by the insertion scan of
`add_job` (the default `0` is unreachable: every queued id is in `jobs`). -/
def priorityOf (jobs : List (String × BatchJob)) (id : String) : Int :=
  match jobs.lookup id with
  | some j => j.priority
  | none => 0

/-- The `insert_pos` scan of `add_job`: walk the queue, stopping at the first
job of strictly lower priority; if none, land one past the end. -/
def insertPosLoop (pf : String → Int) (priority : Int) : List String → Nat
  | [] => 0
  | e :: rest => if pf e < priority then 0 else insertPosLoop pf priority rest + 1

/-- Python's `list.insert(pos, a)` (positions past the end append). -/
def insertAt : Nat → String → List String → List String
  | 0, a, l => a :: l
  | _ + 1, a, [] => [a]
  | n + 1, a, x :: xs => x :: insertAt n a xs

/-- `BatchQueueManager.add_job`: reject when the queue is at
`max_queue_size`, otherwise create the job, register it in the `jobs` dict and
insert its id at the scanned position.  `id` models the fresh `uuid4`. -/
def add_job (s : QueueState) (id : String) (request : MapGenerationRequest)
    (name : String) (priority : Int) : Except String (QueueState × BatchJob) :=
  if s.maxQueueSize ≤ s.queue.length then
    .error "Queue is full"
  else
    let job : BatchJob :=
      { id := id, name := name, request := request, status := .pending
        progress := 0, error := none, result := none, createdAt := s.clock
        startedAt := none, completedAt := none, priority := priority }
    let jobs' := s.jobs ++ [(id, job)]
    let pos := insertPosLoop (priorityOf jobs') priority s.queue
    .ok ({ s with jobs := jobs', queue := insertAt pos id s.queue, clock := s.clock + 1 }, job)

/-- `BatchQueueManager.cancel_job`: `False` when the job is unknown or already
`completed`/`failed`; otherwise set `cancelled` and drop the id from the
pending queue and the active set.  (No timestamp is written.) -/
def cancel_job (s : QueueState) (id : String) : QueueState × Bool :=
  match s.jobs.lookup id with
  | none => (s, false)
  | some job =>
      if job.status = .completed ∨ job.status = .failed then (s, false)
      else
        ({ s with
            jobs := updateJobMap s.jobs id (fun j => { j with status := .cancelled })
            queue := s.queue.erase id
            activeJobs := s.activeJobs.erase id }, true)

/-- `BatchQueueManager.update_job_progress`: set progress, optionally set the
status; entering `processing` stamps `started_at` once, entering a terminal
status stamps `completed_at` and leaves the active set. -/
def update_job_progress (s : QueueState) (id : String) (progress : ℚ)
    (status : Option JobStatus) : QueueState :=
  match s.jobs.lookup id with
  | none => s
  | some _ =>
      let upd : BatchJob → BatchJob := fun j =>
        let j1 := { j with progress := progress }
        let j2 := match status with
                  | some st => { j1 with status := st }
                  | none => j1
        match status with
        | some JobStatus.processing =>
            if j2.startedAt = none then { j2 with startedAt := some s.clock } else j2
        | some JobStatus.completed => { j2 with completedAt := some s.clock }
        | some JobStatus.failed => { j2 with completedAt := some s.clock }
        | some JobStatus.cancelled => { j2 with completedAt := some s.clock }
        | _ => j2
      { s with
        jobs := updateJobMap s.jobs id upd
        activeJobs :=
          match status with
          | some JobStatus.completed => s.activeJobs.erase id
          | some JobStatus.failed => s.activeJobs.erase id
          | some JobStatus.cancelled => s.activeJobs.erase id
          | _ => s.activeJobs
        clock := s.clock + 1 }

/-- `BatchQueueManager.get_next_job`: the first job in queue order whose
status is still `pending` (no mutation). -/
def get_next_job (s : QueueState) : Option BatchJob :=
  s.queue.findSome? (fun i =>
    match s.jobs.lookup i with
    | some j => if j.status = .pending then some j else none
    | none => none)

/-- `BatchQueueManager.start_job`: set `processing`, stamp `started_at`, join
the active set.  (No pending/terminal guard exists in the source.) -/
def start_job (s : QueueState) (id : String) : QueueState :=
  match s.jobs.lookup id with
  | none => s
  | some _ =>
      { s with
        jobs := updateJobMap s.jobs id
          (fun j => { j with status := .processing, startedAt := some s.clock })
        activeJobs := if s.activeJobs.contains id then s.activeJobs
                      else s.activeJobs ++ [id]
        clock := s.clock + 1 }

/-- `BatchQueueManager.complete_job`: set `completed`, progress 100, store the
result, stamp `completed_at`, leave the active set and the pending queue. -/
def complete_job (s : QueueState) (id : String) (result : String) : QueueState :=
  match s.jobs.lookup id with
  | none => s
  | some _ =>
      { s with
        jobs := updateJobMap s.jobs id (fun j =>
          { j with status := .completed, progress := 100, result := some result
                   completedAt := some s.clock })
        activeJobs := s.activeJobs.erase id
        queue := s.queue.erase id
        clock := s.clock + 1 }

/-- `BatchQueueManager.fail_job`: set `failed`, record the error, stamp
`completed_at`, leave the active set and the pending queue. -/
def fail_job (s : QueueState) (id : String) (error : String) : QueueState :=
  match s.jobs.lookup id with
  | none => s
  | some _ =>
      { s with
        jobs := updateJobMap s.jobs id (fun j =>
          { j with status := .failed, error := some error, completedAt := some s.clock })
        activeJobs := s.activeJobs.erase id
        queue := s.queue.erase id
        clock := s.clock + 1 }

/-- `BatchQueueManager.can_process_more`. -/
def can_process_more (s : QueueState) : Bool :=
  s.activeJobs.length < s.maxConcurrent

/-- `BatchQueueManager.retry_job`: only `failed` jobs are retryable; reset
status/progress/error/timestamps and **append the id at the end of the
queue** (`self.queue.append(job_id)` in the source). -/
def retry_job (s : QueueState) (id : String) : QueueState × Bool :=
  match s.jobs.lookup id with
  | none => (s, false)
  | some job =>
      if job.status = .failed then
        ({ s with
            jobs := updateJobMap s.jobs id (fun j =>
              { j with status := .pending, progress := 0, error := none
                       startedAt := none, completedAt := none })
            queue := s.queue ++ [id] }, true)
      else (s, false)

/-! ## Batch admission: `api/batch_routes.py`, `add_batch_jobs` -/

/-- `add_batch_jobs` from `batch_routes.py`: reject an empty list or more jobs
than `max_queue_size`; then, per request, skip it when `bbox.area_km2() <= 0`
(the only validation performed), otherwise enqueue it via `add_job` — any
exception (such as the queue-full `ValueError`) is caught, logged and the loop
continues.  Requests come paired with their model of the fresh `uuid4`. -/
noncomputable def add_batch_jobs (s : QueueState)
    (reqs : List (String × MapGenerationRequest)) (priority : Int) :
    Except String (QueueState × List String) :=
  if reqs.isEmpty then .error "No jobs provided"
  else if s.maxQueueSize < reqs.length then .error "Too many jobs"
  else .ok (reqs.foldl
    (fun (acc : QueueState × List String) (r : String × MapGenerationRequest) =>
      if area_km2 r.2.bbox ≤ 0 then acc
      else
        match add_job acc.1 r.1 r.2 r.2.name priority with
        | .ok (s', job) => (s', acc.2 ++ [job.id])
        | .error _ => acc)
    (s, []))

/-! ## Generation pipeline: `core/terrain_generator.py`, `TerraForgeGenerator`

The provider clients are external collaborators; they are modelled by a
`SourceEnv` giving, per source name, whether the source was initialized
(`present`, the keys of `self.sources`), the result of `is_available()` and of
the data calls (`none` models the call raising, `some none` a `None` result).
`generate_terrain`'s steps 3–6 (weightmaps, terrain-data assembly, export,
packaging) are pure post-processing of the acquired data; `_export_terrain` is
modelled separately below.  Nothing in `generate_terrain` or `process_queue`
reads or writes `TerrainCacheManager`, and the model mirrors that. -/

/-- Behaviour of the configured data sources. -/
structure SourceEnv where
  present : List String
  isAvailable : String → Option Bool
  getElevation : String → Option (Option Nat)
  getVectors : String → Option (Option Nat)

/-- What `_get_elevation_data` returned: data from a named real source, or the
synthetic fallback terrain. -/
inductive ElevResult
  | fromSource (name : String) (d : Nat)
  | synthetic
deriving DecidableEq, Repr

/-- The source priority list of `_get_elevation_data`: a fixed quality-ordered
list for `auto`, else the single requested source. -/
def elevation_priority (src : ElevationSource) : List String :=
  match src with
  | .auto => ["opentopography", "azure_maps", "srtm"]
  | s => [s.value]

/-- `TerraForgeGenerator._get_elevation_data`: walk the priority list, skip
names missing from `self.sources` without touching them, otherwise invoke the
source (recorded in the returned trace); unavailability, exceptions and `None`
results all fall through to the next source; when everything is exhausted,
fall back to `_generate_synthetic_terrain`. -/
def get_elevation_data (env : SourceEnv) : List String → ElevResult × List String
  | [] => (.synthetic, [])
  | name :: rest =>
      if env.present.contains name then
        match env.isAvailable name with
        | some true =>
            match env.getElevation name with
            | some (some d) => (.fromSource name d, [name])
            | _ =>
                let (r, t) := get_elevation_data env rest
                (r, name :: t)
        | _ =>
            let (r, t) := get_elevation_data env rest
            (r, name :: t)
      else get_elevation_data env rest

/-- `TerraForgeGenerator._get_vector_data`: try OSM first (no availability
check), then Azure Maps behind an `is_available()` check; every failure mode
degrades to `None`.  The second component traces the sources invoked. -/
def get_vector_data (env : SourceEnv) : Option Nat × List String :=
  let osmStep : Option Nat × List String :=
    if env.present.contains "osm" then
      match env.getVectors "osm" with
      | some (some d) => (some d, ["osm"])
      | _ => (none, ["osm"])
    else (none, [])
  match osmStep with
  | (some d, t) => (some d, t)
  | (none, t) =>
      if env.present.contains "azure_maps" then
        match env.isAvailable "azure_maps" with
        | some true =>
            match env.getVectors "azure_maps" with
            | some (some d) => (some d, t ++ ["azure_maps"])
            | _ => (none, t ++ ["azure_maps"])
        | _ => (none, t ++ ["azure_maps"])
      else (none, t)

/-- `settings.max_area_km2` (default `100.0` in `config.py`, and the same
`getattr` default inside `generate_terrain`). -/
noncomputable def max_area_km2 : ℝ := 100

/-- Observable outcome of one `generate_terrain` run: final task status and
error, the acquired data, and the trace of data-source invocations performed.
There is no cache field because the source consults no cache. -/
structure GenRun where
  status : String
  error : Option String
  progress : ℚ
  elevation : Option ElevResult
  vectors : Option Nat
  sourceCalls : List String

/-- `TerraForgeGenerator.generate_terrain`: validate the area bound (raising
fails the task before any data acquisition), then resolve elevation (never
`None`, thanks to the synthetic fallback), then vectors when roads or
buildings are enabled, then complete.  Each run recomputes from the sources:
the function takes no cache state and performs no cache lookup, mirroring the
source. -/
noncomputable def generate_terrain (env : SourceEnv) (req : MapGenerationRequest) : GenRun :=
  if max_area_km2 < area_km2 req.bbox then
    { status := "failed", error := some "Area too large", progress := 0
      elevation := none, vectors := none, sourceCalls := [] }
  else
    let et := get_elevation_data env (elevation_priority req.elevationSource)
    let vt := if req.enableRoads || req.enableBuildings then get_vector_data env
              else (none, [])
    { status := "completed", error := none, progress := 100
      elevation := some et.1, vectors := vt.1, sourceCalls := et.2 ++ vt.2 }

/-! ## Export fan-out: `core/terrain_generator.py`, `TerraForgeGenerator._export_terrain` -/

/-- One value of the export results dict: a successful file list with its
output directory, or the recorded error string. -/
inductive ExportEntry
  | files (fs : List String) (directory : String)
  | error (msg : String)
deriving DecidableEq, Repr

/-- The wildcard expansion at the top of `_export_terrain`: when `all` is
requested the whole list is replaced by the four concrete engine formats
(note: `obj` is not among them). -/
def expandFormats (formats : List ExportFormat) : List ExportFormat :=
  if formats.contains .all then [.unreal5, .unity, .gltf, .geotiff] else formats

/-- Assignment `results[key] = entry` on the insertion-ordered results dict. -/
def upsertResult (l : List (String × ExportEntry)) (key : String) (e : ExportEntry) :
    List (String × ExportEntry) :=
  if l.any (fun p => p.1 == key) then l.map (fun p => if p.1 = key then (p.1, e) else p)
  else l ++ [(key, e)]

/-- One iteration of the `for fmt in formats` loop of `_export_terrain`: the
four known formats run their exporter inside `try`, recording either a files
entry or an error entry; any other member (in particular `obj`) matches no
branch, so the iteration records nothing at all.  `outcome` models the
exporter run for a format (`.error` = the branch raised). -/
def exportStep (outcome : ExportFormat → Except String (List String)) (outputDir : String)
    (results : List (String × ExportEntry)) (fmt : ExportFormat) :
    List (String × ExportEntry) :=
  match fmt with
  | .unreal5 | .unity | .gltf | .geotiff =>
      (match outcome fmt with
       | .ok fs => upsertResult results fmt.value (.files fs (outputDir ++ "/" ++ fmt.value))
       | .error e => upsertResult results fmt.value (.error e))
  | _ => results

/-- `TerraForgeGenerator._export_terrain`: expand the wildcard, then fold the
per-format loop over an initially empty results dict. -/
def export_terrain (outcome : ExportFormat → Except String (List String))
    (outputDir : String) (formats : List ExportFormat) : List (String × ExportEntry) :=
  (expandFormats formats).foldl (exportStep outcome outputDir) []

/-! ## Synthetic fallback terrain: `TerraForgeGenerator._generate_synthetic_terrain`

Float arithmetic is modelled over `ℝ`.  The call `np.random.randn(res, res)`
draws from NumPy's *global, unseeded* generator; the draw is modelled as an
explicit `noise` grid argument, so one Python invocation corresponds to
applying the model to the grid that invocation happened to draw. -/

/-- `np.linspace(a, b, n)` (endpoint included; a single point sits at `a`). -/
noncomputable def npLinspace (a b : ℝ) (n : ℕ) : ℕ → ℝ := fun i =>
  if n ≤ 1 then a else a + (i : ℝ) * ((b - a) / ((n : ℝ) - 1))

/-- The deterministic sinusoidal part of the synthetic terrain:
`sin(X)cos(Y)*100 + sin(2X)cos(2Y)*50 + sin(4X)cos(4Y)*25` with
`X[i,j] = x[j]`, `Y[i,j] = y[i]`, `x = y = linspace(0, 8π, res)`. -/
noncomputable def syntheticBase (res : ℕ) (i j : ℕ) : ℝ :=
  let X := npLinspace 0 (8 * Real.pi) res j
  let Y := npLinspace 0 (8 * Real.pi) res i
  Real.sin X * Real.cos Y * 100 + Real.sin (2 * X) * Real.cos (2 * Y) * 50 +
    Real.sin (4 * X) * Real.cos (4 * Y) * 25

/-- `Z` after `Z += np.random.randn(res, res) * 10`. -/
noncomputable def syntheticRaw (res : ℕ) (noise : ℕ → ℕ → ℝ) (i j : ℕ) : ℝ :=
  syntheticBase res i j + noise i j * 10

/-- `Z.min()` over the `res × res` grid. -/
noncomputable def gridMin (res : ℕ) (f : ℕ → ℕ → ℝ) : ℝ :=
  if h : 0 < res then
    (Finset.range res ×ˢ Finset.range res).inf'
      (Finset.Nonempty.product ⟨0, Finset.mem_range.mpr h⟩ ⟨0, Finset.mem_range.mpr h⟩)
      (fun p => f p.1 p.2)
  else 0

/-- `TerraForgeGenerator._generate_synthetic_terrain`: the noisy grid shifted
to positive values, `Z - Z.min() + 100`. -/
noncomputable def generate_synthetic_terrain (res : ℕ) (noise : ℕ → ℕ → ℝ) (i j : ℕ) : ℝ :=
  syntheticRaw res noise i j - gridMin res (syntheticRaw res noise) + 100

/-! ## Concrete scenarios used in the theorems below -/

/-- A small well-formed bbox (0.01° × 0.01° at the equator). -/
def exBBox : BoundingBox := { north := 1/100, south := 0, east := 1/100, west := 0 }

/-- A 2° × 2° bbox: far larger than the 100 km² admission bound. -/
def bigBBox : BoundingBox := { north := 2, south := 0, east := 2, west := 0 }

/-- A request over `exBBox` with vector features disabled. -/
def exReq (nm : String) : MapGenerationRequest :=
  { bbox := exBBox, name := nm, resolution := 64, exportFormats := [.unreal5]
    elevationSource := .auto, enableAiAnalysis := false, enableRoads := false
    enableBuildings := false, enableVegetation := true, enableWaterBodies := true
    enableWeightmaps := true, enable3dPreview := false }

/-- The oversized request of the admission counterexample. -/
def bigReq : MapGenerationRequest :=
  { bbox := bigBBox, name := "big", resolution := 64, exportFormats := [.unreal5]
    elevationSource := .auto, enableAiAnalysis := false, enableRoads := false
    enableBuildings := false, enableVegetation := true, enableWaterBodies := true
    enableWeightmaps := true, enable3dPreview := false }

/-- The oversized request with its bbox mirrored (south > north): malformed
per the spec's bbox invariant, yet with the same absolute area. -/
def mirrorReq : MapGenerationRequest :=
  { bbox := swapNorthSouth bigBBox, name := "mirror", resolution := 64
    exportFormats := [.unreal5], elevationSource := .auto, enableAiAnalysis := false
    enableRoads := false, enableBuildings := false, enableVegetation := true
    enableWaterBodies := true, enableWeightmaps := true, enable3dPreview := false }

/-- Run `add_job`, keeping the old state when it rejects (test harness). -/
def addJobRun (s : QueueState) (id nm : String) (p : Int) : QueueState :=
  match add_job s id (exReq nm) nm p with
  | .ok (s', _) => s'
  | .error _ => s

/-- Repeatedly take `get_next_job` and complete it, collecting job names: the
observable dequeue order of a queue of pending jobs. -/
def drainNames : Nat → QueueState → List String
  | 0, _ => []
  | n + 1, s =>
      match get_next_job s with
      | none => []
      | some j => j.name :: drainNames n (complete_job s j.id "done")

/-- The spec's queue-ordering example: A(5), B(1), C(5), D(3) added in that
order to an empty queue. -/
def exQueueABCD : QueueState :=
  addJobRun (addJobRun (addJobRun (addJobRun (initQueue 3 50) "a" "A" 5) "b" "B" 1)
    "c" "C" 5) "d" "D" 3

/-- Failure scenario: A(5) runs and fails while B(1) stays pending. -/
def failedScenario : QueueState :=
  fail_job (start_job (addJobRun (addJobRun (initQueue 3 50) "a" "A" 5) "b" "B" 1) "a")
    "a" "boom"

/-- The failure scenario after A has been retried. -/
def retryScenario : QueueState :=
  (retry_job failedScenario "a").1

/-- Completion scenario: a single job A that has run to completion. -/
def completedScenario : QueueState :=
  complete_job (start_job (addJobRun (initQueue 3 50) "a" "A" 0) "a") "a" "done"

/-- The completion scenario after `start_job` is called on the completed job
again. -/
def completedThenStarted : QueueState :=
  start_job completedScenario "a"

/-- Cache scenario: puts of 10, 80 and 15 bytes into a 100-byte cache. -/
def cacheRunABC : CacheState :=
  store_result (store_result (store_result (emptyCache 100) "A" 10) "B" 80) "C" 15

/-- Cache scenario: a single 150-byte put into an empty 100-byte cache. -/
def cacheRunBig : CacheState :=
  store_result (emptyCache 100) "D" 150

/-- A source environment where OpenTopography is configured, available and
returns elevation data, and OSM serves vectors. -/
def exEnv : SourceEnv :=
  { present := ["opentopography", "osm"]
    isAvailable := fun _ => some true
    getElevation := fun name => if name == "opentopography" then some (some 7) else some none
    getVectors := fun _ => some (some 3) }

/-- An exporter behaviour where only the `unity` exporter raises (the spec's
export-isolation example). -/
def exOutcome : ExportFormat → Except String (List String) :=
  fun f => if f = .unity then .error "unity boom" else .ok ["f"]

/-- The all-zero noise grid (one possible global-RNG draw). -/
def noiseZero : ℕ → ℕ → ℝ := fun _ _ => 0

/-- A noise grid differing from `noiseZero` only at cell (0,0) (another
possible global-RNG draw). -/
noncomputable def noiseBump : ℕ → ℕ → ℝ := fun i j => if i = 0 ∧ j = 0 then 1 else 0

/-! ## Theorems -/

/-- Swapping `north` and `south` negates the signed product inside the
absolute value, leaving `area_km2` unchanged. -/
lemma area_km2_swapNorthSouth (b : BoundingBox) :
    area_km2 (swapNorthSouth b) = area_km2 b := by
  unfold area_km2 swapNorthSouth
  simp only
  have hc : (((b.south : ℝ)) + (b.north : ℝ)) / 2 * Real.pi / 180
      = (((b.north : ℝ)) + (b.south : ℝ)) / 2 * Real.pi / 180 := by ring
  rw [hc]
  rw [show ((b.south : ℝ) - (b.north : ℝ)) * ((b.east : ℝ) - (b.west : ℝ)) *
        Real.cos (((b.north : ℝ) + (b.south : ℝ)) / 2 * Real.pi / 180) * 111.32 * 111.32
      = -(((b.north : ℝ) - (b.south : ℝ)) * ((b.east : ℝ) - (b.west : ℝ)) *
        Real.cos (((b.north : ℝ) + (b.south : ℝ)) / 2 * Real.pi / 180) * 111.32 * 111.32)
    from by ring]
  exact abs_neg _

/-- Swapping `east` and `west` likewise leaves `area_km2` unchanged. -/
lemma area_km2_swapEastWest (b : BoundingBox) :
    area_km2 (swapEastWest b) = area_km2 b := by
  unfold area_km2 swapEastWest
  simp only
  rw [show ((b.north : ℝ) - (b.south : ℝ)) * ((b.west : ℝ) - (b.east : ℝ)) *
        Real.cos (((b.north : ℝ) + (b.south : ℝ)) / 2 * Real.pi / 180) * 111.32 * 111.32
      = -(((b.north : ℝ) - (b.south : ℝ)) * ((b.east : ℝ) - (b.west : ℝ)) *
        Real.cos (((b.north : ℝ) + (b.south : ℝ)) / 2 * Real.pi / 180) * 111.32 * 111.32)
    from by ring]
  exact abs_neg _

/-- C10: `area_km2` takes an absolute value, so it is non-negative and is
invariant under swapping `north`/`south` (or `east`/`west`); consequently every
admission check that looks only at the area value returns the same verdict on a
malformed bbox and on its well-formed mirror. -/
theorem area_km2_mirror_blind (b : BoundingBox) :
    area_km2 (swapNorthSouth b) = area_km2 b ∧
    area_km2 (swapEastWest b) = area_km2 b ∧
    0 ≤ area_km2 b ∧
    (∀ check : ℝ → Bool, check (area_km2 (swapNorthSouth b)) = check (area_km2 b)) ∧
    (∀ check : ℝ → Bool, check (area_km2 (swapEastWest b)) = check (area_km2 b)) :=
  ⟨area_km2_swapNorthSouth b, area_km2_swapEastWest b, abs_nonneg _,
    fun check => by rw [area_km2_swapNorthSouth], fun check => by rw [area_km2_swapEastWest]⟩

/-- Python's `sorted` is a canonical form: permuted inputs sort identically. -/
lemma sortedStrings_perm (l₁ l₂ : List String) (h : List.Perm l₁ l₂) :
    sortedStrings l₁ = sortedStrings l₂ :=
  List.eq_of_perm_of_sorted
    ((List.perm_insertionSort _ l₁).trans (h.trans (List.perm_insertionSort _ l₂).symm))
    (List.sorted_insertionSort _ l₁) (List.sorted_insertionSort _ l₂)

/-- `round(4e-7, 6) = 0`. -/
lemma pyround6_of_point4 : pyround6 ((1 : ℚ)/2500000) = 0 := by
  have hx : ((1 : ℚ)/2500000) * 1000000 = 2/5 := by norm_num
  have hf : ⌊(2/5 : ℚ)⌋ = 0 := by
    rw [Int.floor_eq_iff]
    norm_num
  simp only [pyround6, pyRoundHalfEven, hx, hf]
  norm_num

/-- `round(6e-7, 6) = 1e-6`. -/
lemma pyround6_of_point6 : pyround6 ((3 : ℚ)/5000000) = 1/1000000 := by
  have hx : ((3 : ℚ)/5000000) * 1000000 = 3/5 := by norm_num
  have hf : ⌊(3/5 : ℚ)⌋ = 0 := by
    rw [Int.floor_eq_iff]
    norm_num
  simp only [pyround6, pyRoundHalfEven, hx, hf]
  norm_num

/-- C8 (amended): `generate_cache_key` is a pure function of its inputs, and
two (bbox, config) pairs receive identical keys whenever each coordinate
*rounds to the same multiple of 1e-6* and the configs agree up to reordering
of `export_formats` — mere closeness below 1e-6° does not suffice (see the
counterexample). -/
theorem generate_cache_key_canonicalizes (b₁ b₂ : BoundingBox) (c₁ c₂ : ConfigDict)
    (hn : pyround6 b₁.north = pyround6 b₂.north)
    (hs : pyround6 b₁.south = pyround6 b₂.south)
    (he : pyround6 b₁.east = pyround6 b₂.east)
    (hw : pyround6 b₁.west = pyround6 b₂.west)
    (hres : c₁.resolution = c₂.resolution)
    (hfmt : List.Perm (c₁.exportFormats.getD []) (c₂.exportFormats.getD []))
    (hsrc : c₁.elevationSource = c₂.elevationSource)
    (hroads : c₁.enableRoads = c₂.enableRoads)
    (hbuild : c₁.enableBuildings = c₂.enableBuildings)
    (hwm : c₁.enableWeightmaps = c₂.enableWeightmaps)
    (hveg : c₁.enableVegetation = c₂.enableVegetation)
    (hwater : c₁.enableWaterBodies = c₂.enableWaterBodies) :
    generate_cache_key b₁ c₁ = generate_cache_key b₂ c₂ := by
  have hsorted := sortedStrings_perm _ _ hfmt
  simp [generate_cache_key, hn, hs, he, hw, hres, hsorted, hsrc, hroads, hbuild,
    hwm, hveg, hwater]

/-- Witness for C8's amended theorem: concrete configs that differ only in the
order of `export_formats` receive the same key. -/
theorem generate_cache_key_canonicalizes_witness :
    generate_cache_key exBBox
      { resolution := some 64, exportFormats := some ["unity", "unreal5"]
        elevationSource := some "auto", enableRoads := some true
        enableBuildings := none, enableWeightmaps := some true
        enableVegetation := none, enableWaterBodies := some false }
      = generate_cache_key exBBox
      { resolution := some 64, exportFormats := some ["unreal5", "unity"]
        elevationSource := some "auto", enableRoads := some true
        enableBuildings := none, enableWeightmaps := some true
        enableVegetation := none, enableWaterBodies := some false } :=
  generate_cache_key_canonicalizes _ _ _ _ rfl rfl rfl rfl rfl (by decide) rfl rfl rfl
    rfl rfl rfl

/-- Counterexample to C8 as stated: two bboxes whose north coordinates differ
by 2e-7 < 1e-6 (all other coordinates equal) straddle a rounding boundary —
`round(4e-7, 6) = 0` but `round(6e-7, 6) = 1e-6` — so their cache keys
differ. -/
theorem generate_cache_key_close_bboxes_differ :
    |(1 : ℚ)/2500000 - 3/5000000| < 1/1000000 ∧
    generate_cache_key { north := 1/2500000, south := 0, east := 1/100, west := 0 }
      { resolution := some 64, exportFormats := some ["unreal5"]
        elevationSource := some "auto", enableRoads := some true
        enableBuildings := some true, enableWeightmaps := some true
        enableVegetation := some true, enableWaterBodies := some true }
    ≠ generate_cache_key { north := 3/5000000, south := 0, east := 1/100, west := 0 }
      { resolution := some 64, exportFormats := some ["unreal5"]
        elevationSource := some "auto", enableRoads := some true
        enableBuildings := some true, enableWeightmaps := some true
        enableVegetation := some true, enableWaterBodies := some true } := by
  constructor
  · have h : (1 : ℚ)/2500000 - 3/5000000 = -(1/5000000) := by norm_num
    rw [h, abs_neg, abs_of_nonneg (by norm_num)]
    norm_num
  · intro h
    have hq := congrArg (fun k => k.bbox.north) h
    simp only [generate_cache_key] at hq
    rw [pyround6_of_point4, pyround6_of_point6] at hq
    norm_num at hq

/-- The `insert_pos` scan lands exactly at the end of the maximal prefix of
jobs whose priority is at least the new one. -/
lemma insertPosLoop_eq_takeWhile (pf : String → Int) (p : Int) :
    ∀ q : List String,
      insertPosLoop pf p q = (q.takeWhile (fun i => decide (p ≤ pf i))).length := by
  intro q
  induction q with
  | nil => rfl
  | cons e rest ih =>
      simp only [insertPosLoop, List.takeWhile]
      by_cases h : pf e < p
      · rw [if_pos h]
        have hd : (decide (p ≤ pf e)) = false := by simp [not_le.mpr h]
        rw [hd]
        simp
      · rw [if_neg h]
        have hd : (decide (p ≤ pf e)) = true := by simp [not_lt.mp h]
        rw [hd]
        simp [ih]

/-- `list.insert` at the length of the `takeWhile` prefix splices the element
between that prefix and the `dropWhile` remainder. -/
lemma insertAt_takeWhile (p : String → Bool) (a : String) :
    ∀ q : List String,
      insertAt (q.takeWhile p).length a q = q.takeWhile p ++ a :: q.dropWhile p := by
  intro q
  induction q with
  | nil => rfl
  | cons x xs ih =>
      by_cases hx : p x
      · rw [List.takeWhile_cons_of_pos hx, List.dropWhile_cons_of_pos hx]
        simp only [List.length_cons, insertAt, ih]
        simp
      · rw [List.takeWhile_cons_of_neg hx, List.dropWhile_cons_of_neg hx]
        rfl

/-- The first element surviving `dropWhile` falsifies the predicate. -/
lemma dropWhile_head_false (p : String → Bool) :
    ∀ (l : List String) (x : String), (l.dropWhile p).head? = some x → p x = false := by
  intro l
  induction l with
  | nil => intro x h; simp [List.dropWhile] at h
  | cons a rest ih =>
      intro x h
      by_cases ha : p a
      · rw [List.dropWhile_cons_of_pos ha] at h
        exact ih x h
      · rw [List.dropWhile_cons_of_neg ha] at h
        simp only [List.head?_cons, Option.some.injEq] at h
        rw [← h]
        exact Bool.of_not_eq_true ha

/-- C5: when the queue has room, `add_job` inserts the fresh id immediately
before the first queued job of strictly lower priority: the resulting queue is
`prefix ++ [id] ++ rest`, where `prefix` is the maximal leading run of jobs
with priority ≥ the new one (so equal-priority jobs keep FIFO order) and the
first job of `rest`, when any, has strictly lower priority; in particular
A(5), B(1), C(5), D(3) added to an empty queue dequeue as A, C, D, B. -/
theorem add_job_priority_insertion (s : QueueState) (id : String)
    (req : MapGenerationRequest) (nm : String) (p : Int)
    (hroom : s.queue.length < s.maxQueueSize) :
    (∃ s' job, add_job s id req nm p = .ok (s', job) ∧
      (s'.queue =
        s.queue.takeWhile (fun i => decide (p ≤ priorityOf s'.jobs i)) ++
          id :: s.queue.dropWhile (fun i => decide (p ≤ priorityOf s'.jobs i))) ∧
      (∀ i ∈ s.queue.takeWhile (fun i => decide (p ≤ priorityOf s'.jobs i)),
        p ≤ priorityOf s'.jobs i) ∧
      (∀ i, (s.queue.dropWhile (fun i => decide (p ≤ priorityOf s'.jobs i))).head? = some i →
        priorityOf s'.jobs i < p)) ∧
    drainNames 4 exQueueABCD = ["A", "C", "D", "B"] := by
  constructor
  · simp only [add_job, if_neg (not_le.mpr hroom)]
    refine ⟨_, _, rfl, ?_, ?_, ?_⟩
    · simp only
      rw [insertPosLoop_eq_takeWhile, insertAt_takeWhile]
    · intro i hi
      have := List.mem_takeWhile_imp hi
      simpa using this
    · intro i hi
      have := dropWhile_head_false _ _ _ hi
      simpa using this
  · decide

/-- Witness for C5's theorem at a concrete empty queue. -/
theorem add_job_priority_insertion_witness :
    (initQueue 3 50).queue.length < (initQueue 3 50).maxQueueSize ∧
    drainNames 4 exQueueABCD = ["A", "C", "D", "B"] :=
  ⟨by decide,
    (add_job_priority_insertion (initQueue 3 50) "z" (exReq "Z") "Z" 5 (by decide)).2⟩

/-- Mutating the job stored under `id` is visible through a dict lookup. -/
lemma lookup_updateJobMap (id : String) (f : BatchJob → BatchJob) :
    ∀ jobs : List (String × BatchJob),
      (updateJobMap jobs id f).lookup id = (jobs.lookup id).map f := by
  intro jobs
  induction jobs with
  | nil => rfl
  | cons kv rest ih =>
      obtain ⟨k, v⟩ := kv
      by_cases hk : k = id
      · subst hk
        have h1 : updateJobMap ((k, v) :: rest) k f = (k, f v) :: updateJobMap rest k f := by
          simp [updateJobMap]
        rw [h1]
        simp [List.lookup]
      · have hbeq' : (id == k) = false := beq_eq_false_iff_ne.mpr (Ne.symm hk)
        have h1 : updateJobMap ((k, v) :: rest) id f = (k, v) :: updateJobMap rest id f := by
          simp [updateJobMap, hk]
        have h2 : List.lookup id ((k, v) :: updateJobMap rest id f)
            = List.lookup id (updateJobMap rest id f) := by
          simp [List.lookup, hbeq']
        have h3 : List.lookup id ((k, v) :: rest) = List.lookup id rest := by
          simp [List.lookup, hbeq']
        rw [h1, h2, h3, ih]

/-- C4 (amended): retrying a `failed` job resets it to
`status=pending, progress=0, error=None` (clearing both timestamps, keeping
its request and priority) and appends its id **at the end of the queue**,
after every currently queued job regardless of priority — not merely after the
same- or higher-priority ones, so dequeue order is no longer
priority-descending (see the counterexample). -/
theorem retry_job_resets_and_appends (s : QueueState) (id : String)
    (hfail : (s.jobs.lookup id).map (fun j => j.status) = some .failed) :
    ∃ j, s.jobs.lookup id = some j ∧
      retry_job s id =
        ({ s with
            jobs := updateJobMap s.jobs id (fun j =>
              { j with status := .pending, progress := 0, error := none
                       startedAt := none, completedAt := none })
            queue := s.queue ++ [id] }, true) ∧
      (retry_job s id).1.jobs.lookup id =
        some { j with status := .pending, progress := 0, error := none
                      startedAt := none, completedAt := none } ∧
      (retry_job s id).1.queue = s.queue ++ [id] := by
  cases hl : s.jobs.lookup id with
  | none => rw [hl] at hfail; simp at hfail
  | some j =>
      rw [hl] at hfail
      simp only [Option.map_some', Option.some.injEq] at hfail
      refine ⟨j, rfl, ?_⟩
      have hrun : retry_job s id =
          ({ s with
              jobs := updateJobMap s.jobs id (fun j =>
                { j with status := .pending, progress := 0, error := none
                         startedAt := none, completedAt := none })
              queue := s.queue ++ [id] }, true) := by
        unfold retry_job
        rw [hl]
        simp [hfail]
      refine ⟨hrun, ?_, by rw [hrun]⟩
      rw [hrun]
      simp only [lookup_updateJobMap, hl, Option.map_some']

/-- Witness for C4's amended theorem on the concrete failure scenario. -/
theorem retry_job_resets_and_appends_witness :
    (failedScenario.jobs.lookup "a").map (fun j => j.status) = some .failed ∧
    (retry_job failedScenario "a").1.queue = failedScenario.queue ++ ["a"] := by
  obtain ⟨j, h1, h2, h3, h4⟩ := retry_job_resets_and_appends failedScenario "a" (by decide)
  exact ⟨by decide, h4⟩

/-- Counterexample to C4 as stated: after failed A(priority 5) is retried
while B(priority 1) is still pending, A sits **behind** B in the queue and
`get_next_job` returns B — the retried job was not re-enqueued before the
lower-priority pending job, so dequeue order is not priority-descending. -/
theorem retry_job_appends_after_lower_priority :
    retryScenario.queue = ["b", "a"] ∧
    (retryScenario.jobs.lookup "a").map (fun j => (j.status, j.priority))
      = some (.pending, 5) ∧
    (retryScenario.jobs.lookup "b").map (fun j => (j.status, j.priority))
      = some (.pending, 1) ∧
    (get_next_job retryScenario).map (fun j => j.id) = some "b" :=
  ⟨by decide, by decide, by decide, by decide⟩

/-- C7 (amended): `cancel_job` alone respects terminality — invoked on a job
whose status is `completed`, `failed` or `cancelled` it never changes that
status (refusing outright for `completed`/`failed`, idempotently re-writing
`cancelled`) — while `start_job`, `complete_job`, `fail_job` and
`update_job_progress` carry no terminal-state guard and can move a terminal
job to another status (see the counterexample); `retry_job` moves `failed`
back to `pending` as the claim's stated exception allows. -/
theorem cancel_job_preserves_terminal (s : QueueState) (id : String) (st : JobStatus)
    (hst : (s.jobs.lookup id).map (fun j => j.status) = some st)
    (hterm : st = .completed ∨ st = .failed ∨ st = .cancelled) :
    ((cancel_job s id).1.jobs.lookup id).map (fun j => j.status) = some st ∧
    (cancel_job s id).2 = decide (st = .cancelled) := by
  cases hl : s.jobs.lookup id with
  | none => rw [hl] at hst; simp at hst
  | some j =>
      rw [hl] at hst
      simp only [Option.map_some', Option.some.injEq] at hst
      rcases hterm with h | h | h
      · have hguard : j.status = JobStatus.completed ∨ j.status = JobStatus.failed :=
          Or.inl (hst.trans h)
        have hrun : cancel_job s id = (s, false) := by
          unfold cancel_job
          rw [hl]
          simp [hguard]
        rw [hrun, h]
        refine ⟨by rw [hl]; simp [hst, h], rfl⟩
      · have hguard : j.status = JobStatus.completed ∨ j.status = JobStatus.failed :=
          Or.inr (hst.trans h)
        have hrun : cancel_job s id = (s, false) := by
          unfold cancel_job
          rw [hl]
          simp [hguard]
        rw [hrun, h]
        refine ⟨by rw [hl]; simp [hst, h], rfl⟩
      · have hguard : ¬(j.status = JobStatus.completed ∨ j.status = JobStatus.failed) := by
          rw [hst, h]
          simp
        have hrun : cancel_job s id =
            ({ s with
                jobs := updateJobMap s.jobs id (fun j => { j with status := .cancelled })
                queue := s.queue.erase id
                activeJobs := s.activeJobs.erase id }, true) := by
          unfold cancel_job
          rw [hl]
          simp [hguard]
        rw [hrun, h]
        constructor
        · simp only [lookup_updateJobMap, hl, Option.map_some']
        · rfl

/-- Witness for C7's amended theorem on the concrete completed-job state. -/
theorem cancel_job_preserves_terminal_witness :
    (completedScenario.jobs.lookup "a").map (fun j => j.status) = some .completed ∧
    ((cancel_job completedScenario "a").1.jobs.lookup "a").map (fun j => j.status)
      = some .completed :=
  ⟨by decide,
    (cancel_job_preserves_terminal completedScenario "a" .completed (by decide)
      (Or.inl rfl)).1⟩

/-- Counterexample to C7 as stated: `start_job` on the `completed` job A (a
terminal state, with no retry involved) moves its status back to
`processing`. -/
theorem start_job_resurrects_completed :
    (completedScenario.jobs.lookup "a").map (fun j => j.status) = some .completed ∧
    (completedThenStarted.jobs.lookup "a").map (fun j => j.status) = some .processing :=
  ⟨by decide, by decide⟩

/-- Permutations preserve the byte total. -/
lemma sumSizes_perm {l₁ l₂ : List (String × CacheEntry)} (h : List.Perm l₁ l₂) :
    sumSizes l₁ = sumSizes l₂ := by
  unfold sumSizes
  exact (h.map (fun p => p.2.size)).sum_eq

/-- Deleting a key can only shrink the byte total. -/
lemma sumSizes_filter_le (key : String) :
    ∀ l : List (String × CacheEntry),
      sumSizes (l.filter (fun p => !(p.1 == key))) ≤ sumSizes l := by
  intro l
  induction l with
  | nil => exact Nat.le_refl _
  | cons kv rest ih =>
      obtain ⟨k, v⟩ := kv
      have hs : sumSizes ((k, v) :: rest) = v.size + sumSizes rest := rfl
      by_cases hk : k == key
      · rw [List.filter_cons_of_neg (by simp [hk]), hs]
        omega
      · rw [List.filter_cons_of_pos (by simp [hk]), hs]
        have hs' : sumSizes ((k, v) :: rest.filter (fun p => !(p.1 == key)))
            = v.size + sumSizes (rest.filter (fun p => !(p.1 == key))) := rfl
        rw [hs']
        omega

/-- Deleting the looked-up entry frees at least its recorded size. -/
lemma sumSizes_lookup_filter (key : String) (e : CacheEntry) :
    ∀ l : List (String × CacheEntry), l.lookup key = some e →
      sumSizes (l.filter (fun p => !(p.1 == key))) + e.size ≤ sumSizes l := by
  intro l
  induction l with
  | nil => intro h; simp [List.lookup] at h
  | cons kv rest ih =>
      intro h
      obtain ⟨k, v⟩ := kv
      have hs : sumSizes ((k, v) :: rest) = v.size + sumSizes rest := rfl
      by_cases hk : key = k
      · have hb : (key == k) = true := beq_iff_eq.mpr hk
        rw [List.lookup, hb] at h
        simp only [Option.some.injEq] at h
        subst h
        have hb' : (k == key) = true := beq_iff_eq.mpr hk.symm
        rw [List.filter_cons_of_neg (by simp [hb']), hs]
        have := sumSizes_filter_le key rest
        omega
      · have hb : (key == k) = false := beq_eq_false_iff_ne.mpr hk
        rw [List.lookup, hb] at h
        have hb' : (k == key) = false := beq_eq_false_iff_ne.mpr (Ne.symm hk)
        rw [List.filter_cons_of_pos (by simp [hb']), hs]
        have hs' : sumSizes ((k, v) :: rest.filter (fun p => !(p.1 == key)))
            = v.size + sumSizes (rest.filter (fun p => !(p.1 == key))) := rfl
        rw [hs']
        have := ih h
        omega

/-- With unique keys, deleting the looked-up entry frees exactly its size. -/
lemma sumSizes_lookup_filter_eq (key : String) (e : CacheEntry) :
    ∀ l : List (String × CacheEntry), KeysNodup l → l.lookup key = some e →
      sumSizes (l.filter (fun p => !(p.1 == key))) + e.size = sumSizes l := by
  intro l
  induction l with
  | nil => intro _ h; simp [List.lookup] at h
  | cons kv rest ih =>
      intro hnd h
      obtain ⟨k, v⟩ := kv
      have hnd' : KeysNodup rest := (List.nodup_cons.mp hnd).2
      have hs : sumSizes ((k, v) :: rest) = v.size + sumSizes rest := rfl
      by_cases hk : key = k
      · have hb : (key == k) = true := beq_iff_eq.mpr hk
        rw [List.lookup, hb] at h
        simp only [Option.some.injEq] at h
        subst h
        have hb' : (k == key) = true := beq_iff_eq.mpr hk.symm
        rw [List.filter_cons_of_neg (by simp [hb']), hs]
        have hmem : k ∉ rest.map Prod.fst := (List.nodup_cons.mp hnd).1
        have hrest : rest.filter (fun p => !(p.1 == key)) = rest := by
          apply List.filter_eq_self.mpr
          intro p hp
          have hne : p.1 ≠ key := by
            intro hcontra
            exact hmem (hk ▸ hcontra ▸ List.mem_map_of_mem Prod.fst hp)
          simp [hne]
        rw [hrest]
        omega
      · have hb : (key == k) = false := beq_eq_false_iff_ne.mpr hk
        rw [List.lookup, hb] at h
        have hb' : (k == key) = false := beq_eq_false_iff_ne.mpr (Ne.symm hk)
        rw [List.filter_cons_of_pos (by simp [hb']), hs]
        have hs' : sumSizes ((k, v) :: rest.filter (fun p => !(p.1 == key)))
            = v.size + sumSizes (rest.filter (fun p => !(p.1 == key))) := rfl
        rw [hs']
        have := ih hnd' h
        omega

/-- Deleting one key leaves lookups of other keys untouched. -/
lemma lookup_filter_ne (key key' : String) (hne : key' ≠ key) :
    ∀ l : List (String × CacheEntry),
      (l.filter (fun p => !(p.1 == key))).lookup key' = l.lookup key' := by
  intro l
  induction l with
  | nil => rfl
  | cons kv rest ih =>
      obtain ⟨k, v⟩ := kv
      by_cases hk : k = key
      · subst hk
        rw [List.filter_cons_of_neg (by simp)]
        rw [ih]
        have hb : (key' == k) = false := beq_eq_false_iff_ne.mpr hne
        rw [List.lookup, hb]
      · rw [List.filter_cons_of_pos (by simp [hk])]
        by_cases hk' : key' = k
        · have hb : (key' == k) = true := beq_iff_eq.mpr hk'
          rw [List.lookup, hb, List.lookup, hb]
        · have hb : (key' == k) = false := beq_eq_false_iff_ne.mpr hk'
          rw [List.lookup, hb, List.lookup, hb, ih]

/-- `invalidate_cache` leaves the configuration fields alone. -/
lemma invalidate_fields (s : CacheState) (key : String) :
    (invalidate_cache s key).maxCacheSize = s.maxCacheSize ∧
    (invalidate_cache s key).clock = s.clock := by
  unfold invalidate_cache
  cases s.entries.lookup key <;> exact ⟨rfl, rfl⟩

/-- `invalidate_cache` never grows the live byte total. -/
lemma invalidate_sum_le (s : CacheState) (key : String) :
    sumSizes (invalidate_cache s key).entries ≤ sumSizes s.entries := by
  unfold invalidate_cache
  cases s.entries.lookup key with
  | none => exact Nat.le_refl _
  | some e => exact sumSizes_filter_le key s.entries

/-- `invalidate_cache` preserves the no-undercount half of the invariant. -/
lemma invalidate_inv2 (s : CacheState) (key : String)
    (h : sumSizes s.entries ≤ s.totalSize) :
    sumSizes (invalidate_cache s key).entries ≤ (invalidate_cache s key).totalSize := by
  unfold invalidate_cache
  cases hl : s.entries.lookup key with
  | none => exact h
  | some e =>
      have := sumSizes_lookup_filter key e s.entries hl
      simp only
      omega

/-- `invalidate_cache` preserves key uniqueness. -/
lemma invalidate_nodup (s : CacheState) (key : String) (h : KeysNodup s.entries) :
    KeysNodup (invalidate_cache s key).entries := by
  unfold invalidate_cache
  cases s.entries.lookup key with
  | none => exact h
  | some e =>
      exact List.Nodup.sublist (List.Sublist.map Prod.fst (List.filter_sublist _)) h

/-- Lookups of other keys survive `invalidate_cache`. -/
lemma invalidate_lookup_ne (s : CacheState) (key key' : String) (hne : key' ≠ key) :
    (invalidate_cache s key).entries.lookup key' = s.entries.lookup key' := by
  unfold invalidate_cache
  cases s.entries.lookup key with
  | none => rfl
  | some e => exact lookup_filter_ne key key' hne s.entries

/-- With unique keys, membership determines the lookup result. -/
lemma lookup_of_mem_nodup :
    ∀ l : List (String × CacheEntry), KeysNodup l → ∀ kv ∈ l, l.lookup kv.1 = some kv.2 := by
  intro l
  induction l with
  | nil => intro _ kv h; simp at h
  | cons hd rest ih =>
      intro hnd kv hmem
      obtain ⟨k, v⟩ := hd
      rcases List.mem_cons.mp hmem with h | h
      · subst h
        show List.lookup k ((k, v) :: rest) = some v
        have hb : (k == k) = true := beq_self_eq_true k
        rw [List.lookup, hb]
      · have hk : kv.1 ≠ k := by
          intro hcontra
          have hm : kv.1 ∈ rest.map Prod.fst := List.mem_map_of_mem Prod.fst h
          rw [hcontra] at hm
          exact (List.nodup_cons.mp hnd).1 hm
        have hb : (kv.1 == k) = false := beq_eq_false_iff_ne.mpr hk
        rw [List.lookup, hb]
        exact ih (List.nodup_cons.mp hnd).2 kv h

/-- A `None` lookup means no entry carries the key. -/
lemma lookup_none_not_mem (key : String) :
    ∀ l : List (String × CacheEntry), l.lookup key = none → ∀ kv ∈ l, kv.1 ≠ key := by
  intro l
  induction l with
  | nil => intro _ kv h; simp at h
  | cons hd rest ih =>
      intro hnone kv hmem
      obtain ⟨k, v⟩ := hd
      by_cases hk : key = k
      · rw [List.lookup, beq_iff_eq.mpr hk] at hnone
        simp at hnone
      · rw [List.lookup, beq_eq_false_iff_ne.mpr hk] at hnone
        rcases List.mem_cons.mp hmem with h | h
        · subst h
          exact fun hc => hk hc.symm
        · exact ih hnone kv h

/-- The eviction loop leaves the configuration fields alone. -/
lemma evictLoop_fields (needed : Nat) :
    ∀ (snap : List (String × CacheEntry)) (freed : Nat) (s : CacheState),
      (evictLoop needed snap freed s).maxCacheSize = s.maxCacheSize ∧
      (evictLoop needed snap freed s).clock = s.clock := by
  intro snap
  induction snap with
  | nil => intro freed s; exact ⟨rfl, rfl⟩
  | cons kv rest ih =>
      intro freed s
      obtain ⟨k, e⟩ := kv
      simp only [evictLoop]
      by_cases h : needed ≤ freed
      · rw [if_pos h]; exact ⟨rfl, rfl⟩
      · rw [if_neg h]
        refine ⟨?_, ?_⟩
        · rw [(ih _ _).1, (invalidate_fields s k).1]
        · rw [(ih _ _).2, (invalidate_fields s k).2]

/-- The eviction loop never grows the live byte total. -/
lemma evictLoop_sum_le (needed : Nat) :
    ∀ (snap : List (String × CacheEntry)) (freed : Nat) (s : CacheState),
      sumSizes (evictLoop needed snap freed s).entries ≤ sumSizes s.entries := by
  intro snap
  induction snap with
  | nil => intro freed s; exact Nat.le_refl _
  | cons kv rest ih =>
      intro freed s
      obtain ⟨k, e⟩ := kv
      simp only [evictLoop]
      by_cases h : needed ≤ freed
      · rw [if_pos h]
      · rw [if_neg h]
        exact (ih _ _).trans (invalidate_sum_le s k)

/-- The eviction loop preserves the no-undercount half of the invariant. -/
lemma evictLoop_inv2 (needed : Nat) :
    ∀ (snap : List (String × CacheEntry)) (freed : Nat) (s : CacheState),
      sumSizes s.entries ≤ s.totalSize →
      sumSizes (evictLoop needed snap freed s).entries ≤
        (evictLoop needed snap freed s).totalSize := by
  intro snap
  induction snap with
  | nil => intro freed s h; exact h
  | cons kv rest ih =>
      intro freed s h
      obtain ⟨k, e⟩ := kv
      simp only [evictLoop]
      by_cases hf : needed ≤ freed
      · rw [if_pos hf]; exact h
      · rw [if_neg hf]
        exact ih _ _ (invalidate_inv2 s k h)

/-- The eviction loop preserves key uniqueness. -/
lemma evictLoop_nodup (needed : Nat) :
    ∀ (snap : List (String × CacheEntry)) (freed : Nat) (s : CacheState),
      KeysNodup s.entries → KeysNodup (evictLoop needed snap freed s).entries := by
  intro snap
  induction snap with
  | nil => intro freed s h; exact h
  | cons kv rest ih =>
      intro freed s h
      obtain ⟨k, e⟩ := kv
      simp only [evictLoop]
      by_cases hf : needed ≤ freed
      · rw [if_pos hf]; exact h
      · rw [if_neg hf]
        exact ih _ _ (invalidate_nodup s k h)

/-- The eviction loop is exactly the fold of `invalidate_cache` over the
prefix computed by `evictTaken`. -/
lemma evictLoop_eq_foldTaken (needed : Nat) :
    ∀ (snap : List (String × CacheEntry)) (freed : Nat) (s : CacheState),
      evictLoop needed snap freed s =
        (evictTaken needed snap freed).foldl (fun st kv => invalidate_cache st kv.1) s := by
  intro snap
  induction snap with
  | nil => intro freed s; rfl
  | cons kv rest ih =>
      intro freed s
      obtain ⟨k, e⟩ := kv
      simp only [evictLoop, evictTaken]
      by_cases hf : needed ≤ freed
      · rw [if_pos hf, if_pos hf]
        rfl
      · rw [if_neg hf, if_neg hf]
        simp only [List.foldl_cons]
        exact ih _ _

/-- Every proper prefix of the evicted run frees strictly less than the
requested space: the loop removes no more entries than its stop rule needs. -/
lemma evictTaken_minimal (needed : Nat) :
    ∀ (snap : List (String × CacheEntry)) (freed : Nat) (n : Nat),
      n < (evictTaken needed snap freed).length →
      freed + sumSizes ((evictTaken needed snap freed).take n) < needed := by
  intro snap
  induction snap with
  | nil => intro freed n h; simp [evictTaken] at h
  | cons kv rest ih =>
      intro freed n h
      obtain ⟨k, e⟩ := kv
      simp only [evictTaken] at h ⊢
      by_cases hf : needed ≤ freed
      · rw [if_pos hf] at h
        simp at h
      · rw [if_neg hf] at h ⊢
        cases n with
        | zero =>
            simpa [sumSizes] using Nat.lt_of_not_le hf
        | succ m =>
            simp only [List.length_cons, Nat.succ_lt_succ_iff] at h
            have := ih (freed + e.size) m h
            simp only [List.take_succ_cons]
            have hs : sumSizes (((k, e)) :: (evictTaken needed rest (freed + e.size)).take m)
                = e.size + sumSizes ((evictTaken needed rest (freed + e.size)).take m) := rfl
            rw [hs]
            omega

/-- When the snapshot holds enough bytes, the loop frees at least the
requested space: the post-loop total plus `needed` fits under the pre-loop
total plus what was already freed. -/
lemma evictLoop_reaches (needed : Nat) :
    ∀ (snap : List (String × CacheEntry)) (freed : Nat) (s : CacheState),
      KeysNodup s.entries →
      (∀ kv ∈ snap, s.entries.lookup kv.1 = some kv.2) →
      (snap.map Prod.fst).Nodup →
      needed ≤ freed + sumSizes snap →
      sumSizes (evictLoop needed snap freed s).entries + needed ≤
        freed + sumSizes s.entries := by
  intro snap
  induction snap with
  | nil =>
      intro freed s _ _ _ hreach
      have h0 : sumSizes ([] : List (String × CacheEntry)) = 0 := rfl
      rw [h0] at hreach
      simp only [evictLoop]
      omega
  | cons kv rest ih =>
      intro freed s hnd hlook hsnd hreach
      obtain ⟨k, e⟩ := kv
      simp only [evictLoop]
      by_cases hf : needed ≤ freed
      · rw [if_pos hf]
        omega
      · rw [if_neg hf]
        have hlk : s.entries.lookup k = some e := hlook (k, e) (List.mem_cons_self _ _)
        have heq : sumSizes ((invalidate_cache s k).entries) + e.size = sumSizes s.entries := by
          unfold invalidate_cache
          rw [hlk]
          exact sumSizes_lookup_filter_eq k e s.entries hnd hlk
        have hih := ih (freed + e.size) (invalidate_cache s k)
          (invalidate_nodup s k hnd)
          (by
            intro kv hkv
            have hne : kv.1 ≠ k := by
              intro hc
              have hm : kv.1 ∈ rest.map Prod.fst := List.mem_map_of_mem Prod.fst hkv
              rw [hc] at hm
              exact (List.nodup_cons.mp hsnd).1 hm
            rw [invalidate_lookup_ne s k kv.1 hne]
            exact hlook kv (List.mem_cons_of_mem _ hkv))
          (List.nodup_cons.mp hsnd).2
          (by
            have hs : sumSizes ((k, e) :: rest) = e.size + sumSizes rest := rfl
            rw [hs] at hreach
            omega)
        have hs : sumSizes ((k, e) :: rest) = e.size + sumSizes rest := rfl
        omega

/-- When even the whole snapshot cannot free the requested space, the loop
wipes every entry it covers; with a snapshot covering the whole index, the
index comes out empty. -/
lemma evictLoop_exhausts (needed : Nat) :
    ∀ (snap : List (String × CacheEntry)) (freed : Nat) (s : CacheState),
      (∀ kv ∈ s.entries, kv.1 ∈ snap.map Prod.fst) →
      freed + sumSizes snap < needed →
      (evictLoop needed snap freed s).entries = [] := by
  intro snap
  induction snap with
  | nil =>
      intro freed s hcover _
      simp only [evictLoop]
      rcases hves : s.entries with _ | ⟨kv, rest⟩
      · rfl
      · exact absurd (hcover kv (by rw [hves]; exact List.mem_cons_self _ _)) (by simp)
  | cons kv rest ih =>
      intro freed s hcover hlt
      obtain ⟨k, e⟩ := kv
      have hs : sumSizes ((k, e) :: rest) = e.size + sumSizes rest := rfl
      rw [hs] at hlt
      simp only [evictLoop]
      rw [if_neg (by omega)]
      apply ih
      · intro kv hkv
        have hmem : kv ∈ s.entries ∧ kv.1 ≠ k := by
          unfold invalidate_cache at hkv
          cases hlk : s.entries.lookup k with
          | none =>
              rw [hlk] at hkv
              exact ⟨hkv, lookup_none_not_mem k s.entries hlk kv hkv⟩
          | some e' =>
              rw [hlk] at hkv
              simp only [List.mem_filter] at hkv
              refine ⟨hkv.1, ?_⟩
              have := hkv.2
              simpa using this
        have hm := hcover kv hmem.1
        simp only [List.map_cons] at hm
        rcases List.mem_cons.mp hm with h | h
        · exact absurd h hmem.2
        · exact h
      · omega

/-- With unique keys, a dict assignment grows the byte total by at most the
new entry's size (replacement can only free the old entry's bytes). -/
lemma sumSizes_upsert_le (key : String) (e : CacheEntry) :
    ∀ l : List (String × CacheEntry), KeysNodup l →
      sumSizes (upsertEntry l key e) ≤ sumSizes l + e.size := by
  intro l
  induction l with
  | nil =>
      intro _
      simp [upsertEntry, sumSizes]
  | cons kv rest ih =>
      intro hnd
      obtain ⟨k, v⟩ := kv
      have hnd' : KeysNodup rest := (List.nodup_cons.mp hnd).2
      have hs : sumSizes ((k, v) :: rest) = v.size + sumSizes rest := rfl
      by_cases hk : k = key
      · subst hk
        have hany : ((k, v) :: rest).any (fun p => p.1 == k) = true := by
          simp [List.any_cons]
        rw [upsertEntry, if_pos hany, List.map_cons, if_pos rfl]
        have hrest : rest.map (fun p => if p.1 = k then (p.1, e) else p) = rest := by
          conv_rhs => rw [← List.map_id rest]
          apply List.map_congr_left
          intro p hp
          have hne : p.1 ≠ k := by
            intro hc
            have hm : p.1 ∈ rest.map Prod.fst := List.mem_map_of_mem Prod.fst hp
            rw [hc] at hm
            exact (List.nodup_cons.mp hnd).1 hm
          rw [if_neg hne]
          rfl
        rw [hrest]
        have hs2 : sumSizes ((k, e) :: rest) = e.size + sumSizes rest := rfl
        rw [hs2, hs]
        omega
      · have hbk : (k == key) = false := beq_eq_false_iff_ne.mpr hk
        by_cases hany : rest.any (fun p => p.1 == key) = true
        · have hany' : ((k, v) :: rest).any (fun p => p.1 == key) = true := by
            simp [List.any_cons, hany]
          rw [upsertEntry, if_pos hany', List.map_cons, if_neg hk]
          have hihres := ih hnd'
          rw [upsertEntry, if_pos hany] at hihres
          have hs3 : sumSizes ((k, v) :: rest.map (fun p => if p.1 = key then (p.1, e) else p))
              = v.size + sumSizes (rest.map (fun p => if p.1 = key then (p.1, e) else p)) := rfl
          rw [hs3, hs]
          omega
        · have hany' : ((k, v) :: rest).any (fun p => p.1 == key) = false := by
            simp only [List.any_cons, hbk, Bool.false_or]
            exact Bool.of_not_eq_true hany
          rw [upsertEntry, if_neg (by rw [hany']; exact Bool.false_ne_true)]
          have hihres := ih hnd'
          rw [upsertEntry, if_neg (by rw [Bool.of_not_eq_true hany]; exact Bool.false_ne_true)]
            at hihres
          have hs4 : sumSizes ((k, v) :: (rest ++ [(key, e)]))
              = v.size + sumSizes (rest ++ [(key, e)]) := rfl
          rw [List.cons_append, hs4, hs]
          omega

/-- A dict assignment keeps keys unique. -/
lemma upsert_nodup (key : String) (e : CacheEntry) :
    ∀ l : List (String × CacheEntry), KeysNodup l → KeysNodup (upsertEntry l key e) := by
  intro l hnd
  by_cases hany : l.any (fun p => p.1 == key) = true
  · rw [upsertEntry, if_pos hany]
    have hkeys : (l.map (fun p => if p.1 = key then (p.1, e) else p)).map Prod.fst
        = l.map Prod.fst := by
      rw [List.map_map]
      apply List.map_congr_left
      intro p _
      by_cases hp : p.1 = key
      · simp [hp]
      · simp [hp]
    unfold KeysNodup
    rw [hkeys]
    exact hnd
  · rw [upsertEntry, if_neg (by rw [Bool.of_not_eq_true hany]; exact Bool.false_ne_true)]
    have hnotmem : key ∉ l.map Prod.fst := by
      intro hmem
      rcases List.mem_map.mp hmem with ⟨p, hp, hpk⟩
      have : l.any (fun p => p.1 == key) = true :=
        List.any_eq_true.mpr ⟨p, hp, beq_iff_eq.mpr hpk⟩
      exact hany this
    unfold KeysNodup
    rw [List.map_append]
    simp only [List.map_cons, List.map_nil]
    rw [List.nodup_append]
    refine ⟨hnd, List.nodup_singleton _, ?_⟩
    intro a ha hb
    simp only [List.mem_singleton] at hb
    exact hnotmem (hb ▸ ha)

/-- C1 (amended): provided each stored result fits the budget by itself
(`result_size ≤ max_cache_size`), every `store_result` call preserves the
index invariant — in particular Σ `size` over live entries stays ≤ the
configured maximum after each call.  The eviction pass removes exactly the
keys of the shortest prefix of the entries in ascending `last_accessed` order
whose accumulated size reaches `result_size` (every proper prefix frees
strictly less) — it frees at least the incoming result's size rather than the
minimum needed to restore the bound, so it can evict more entries than the
bound requires, and a result larger than the whole budget is stored anyway
(see the counterexample). -/
theorem store_result_eviction_invariant (s : CacheState) (key : String) (r : Nat)
    (hinv : CacheInv s) (hr : r ≤ s.maxCacheSize) :
    CacheInv (store_result s key r) ∧
    (store_result s key r).maxCacheSize = s.maxCacheSize ∧
    evict_old_entries s r =
      (evictTaken r (sortByLastAccessed s.entries) 0).foldl
        (fun st kv => invalidate_cache st kv.1) s ∧
    (∀ n, n < (evictTaken r (sortByLastAccessed s.entries) 0).length →
      sumSizes ((evictTaken r (sortByLastAccessed s.entries) 0).take n) < r) := by
  obtain ⟨h1, h2, h3⟩ := hinv
  have hsnap_perm := List.perm_insertionSort
    (fun (a b : String × CacheEntry) => a.2.lastAccessed ≤ b.2.lastAccessed) s.entries
  have hsum_snap : sumSizes (sortByLastAccessed s.entries) = sumSizes s.entries :=
    sumSizes_perm hsnap_perm
  have hsnap_nodup : ((sortByLastAccessed s.entries).map Prod.fst).Nodup :=
    ((hsnap_perm.map Prod.fst).nodup_iff).mpr h3
  have hlookups : ∀ kv ∈ sortByLastAccessed s.entries, s.entries.lookup kv.1 = some kv.2 :=
    fun kv hkv => lookup_of_mem_nodup s.entries h3 kv (hsnap_perm.mem_iff.mp hkv)
  have hcover : ∀ kv ∈ s.entries, kv.1 ∈ (sortByLastAccessed s.entries).map Prod.fst :=
    fun kv hkv => List.mem_map_of_mem Prod.fst (hsnap_perm.mem_iff.mpr hkv)
  have hmax_t : (evict_old_entries s r).maxCacheSize = s.maxCacheSize :=
    (evictLoop_fields r _ 0 s).1
  have hnodup_t : KeysNodup (evict_old_entries s r).entries :=
    evictLoop_nodup r _ 0 s h3
  have hsum_t_le : sumSizes (evict_old_entries s r).entries ≤ sumSizes s.entries :=
    evictLoop_sum_le r _ 0 s
  have hbound_t : sumSizes (evict_old_entries s r).entries + r ≤ s.maxCacheSize := by
    by_cases hcase : r ≤ sumSizes s.entries
    · have h5 : sumSizes (evict_old_entries s r).entries + r ≤ 0 + sumSizes s.entries :=
        evictLoop_reaches r (sortByLastAccessed s.entries) 0 s h3 hlookups
          hsnap_nodup (by rw [hsum_snap]; omega)
      omega
    · have hempty : (evict_old_entries s r).entries = [] :=
        evictLoop_exhausts r (sortByLastAccessed s.entries) 0 s hcover
          (by rw [hsum_snap]; omega)
      rw [hempty]
      have h0 : sumSizes ([] : List (String × CacheEntry)) = 0 := rfl
      rw [h0]
      omega
  have hmin : ∀ n, n < (evictTaken r (sortByLastAccessed s.entries) 0).length →
      sumSizes ((evictTaken r (sortByLastAccessed s.entries) 0).take n) < r := by
    intro n hn
    have := evictTaken_minimal r (sortByLastAccessed s.entries) 0 n hn
    omega
  by_cases hcond : s.maxCacheSize < s.totalSize + r
  · have hf1 : (store_result s key r).maxCacheSize = (evict_old_entries s r).maxCacheSize := by
      simp only [store_result]
      rw [if_pos hcond]
    have hf2 : (store_result s key r).entries =
        upsertEntry (evict_old_entries s r).entries key
          ⟨"cache/" ++ key, r, (evict_old_entries s r).clock,
            (evict_old_entries s r).clock, 0⟩ := by
      simp only [store_result]
      rw [if_pos hcond]
    have hf3 : (store_result s key r).totalSize = s.totalSize + r := by
      simp only [store_result]
    have hup : sumSizes (upsertEntry (evict_old_entries s r).entries key
          ⟨"cache/" ++ key, r, (evict_old_entries s r).clock,
            (evict_old_entries s r).clock, 0⟩)
        ≤ sumSizes (evict_old_entries s r).entries + r :=
      sumSizes_upsert_le key _ (evict_old_entries s r).entries hnodup_t
    refine ⟨⟨?_, ?_, ?_⟩, ?_, evictLoop_eq_foldTaken r _ 0 s, hmin⟩
    · rw [hf2, hf1, hmax_t]
      omega
    · rw [hf2, hf3]
      omega
    · rw [hf2]
      exact upsert_nodup key _ _ hnodup_t
    · rw [hf1, hmax_t]
  · have hf1 : (store_result s key r).maxCacheSize = s.maxCacheSize := by
      simp only [store_result]
      rw [if_neg hcond]
    have hf2 : (store_result s key r).entries =
        upsertEntry s.entries key ⟨"cache/" ++ key, r, s.clock, s.clock, 0⟩ := by
      simp only [store_result]
      rw [if_neg hcond]
    have hf3 : (store_result s key r).totalSize = s.totalSize + r := by
      simp only [store_result]
    have hup : sumSizes (upsertEntry s.entries key
          ⟨"cache/" ++ key, r, s.clock, s.clock, 0⟩)
        ≤ sumSizes s.entries + r :=
      sumSizes_upsert_le key _ s.entries h3
    refine ⟨⟨?_, ?_, ?_⟩, hf1, evictLoop_eq_foldTaken r _ 0 s, hmin⟩
    · rw [hf2, hf1]
      omega
    · rw [hf2, hf3]
      omega
    · rw [hf2]
      exact upsert_nodup key _ _ h3

/-- Witness for C1's amended theorem: the invariant holds of the concrete
three-put state and is preserved by a fourth put. -/
theorem store_result_eviction_invariant_witness :
    CacheInv cacheRunABC ∧ 20 ≤ cacheRunABC.maxCacheSize ∧
    CacheInv (store_result cacheRunABC "E" 20) :=
  ⟨by unfold CacheInv KeysNodup; decide, by decide,
    (store_result_eviction_invariant cacheRunABC "E" 20
      (by unfold CacheInv KeysNodup; decide) (by decide)).1⟩

/-- Counterexample to C1 as stated: (1) a single 150-byte put into an empty
100-byte cache leaves Σ size = 150 > 100 — the bound conjunct fails; (2) in
the run A(10 bytes) · B(80) · C(15) with budget 100, the put of C evicts both
A and B, although evicting the least-recently-accessed entry A alone would
restore the bound (80 + 15 ≤ 100) — the evicted set is not the minimal
least-recently-accessed set needed. -/
theorem store_result_violates_bound_and_minimality :
    (¬ sumSizes cacheRunBig.entries ≤ cacheRunBig.maxCacheSize) ∧
    cacheRunBig.maxCacheSize = 100 ∧
    sumSizes cacheRunBig.entries = 150 ∧
    cacheRunABC.maxCacheSize = 100 ∧
    cacheRunABC.entries.map Prod.fst = ["C"] ∧
    sumSizes cacheRunABC.entries = 15 ∧
    80 + 15 ≤ 100 :=
  ⟨by decide, by decide, by decide, by decide, by decide, by decide, by decide⟩

/-- `cos(1°)` lies between one half and one. -/
lemma cos_one_degree_bounds :
    (1 : ℝ)/2 ≤ Real.cos (Real.pi/180) ∧ Real.cos (Real.pi/180) ≤ 1 := by
  constructor
  · have hb := Real.one_sub_sq_div_two_le_cos (x := Real.pi/180)
    have hpi : Real.pi ≤ 4 := Real.pi_le_four
    have hpos : 0 < Real.pi := Real.pi_pos
    nlinarith
  · exact Real.cos_le_one _

/-- The 2° × 2° box measures `4 · cos(1°) · 111.32²` km², comfortably above
the 100 km² admission bound. -/
lemma area_km2_bigBBox : 100 < area_km2 bigBBox := by
  have hcos := cos_one_degree_bounds
  have hval : area_km2 bigBBox
      = |(2 : ℝ) * 2 * Real.cos (Real.pi/180) * 111.32 * 111.32| := by
    unfold area_km2 bigBBox
    norm_num
  rw [hval, abs_of_pos (by nlinarith [hcos.1])]
  nlinarith [hcos.1]

/-- The inserted element is a member wherever `list.insert` puts it. -/
lemma mem_insertAt (a : String) : ∀ (n : Nat) (l : List String), a ∈ insertAt n a l := by
  intro n
  induction n with
  | zero => intro l; exact List.mem_cons_self _ _
  | succ m ih =>
      intro l
      cases l with
      | nil => exact List.mem_cons_self _ _
      | cons x xs => exact List.mem_cons_of_mem x (ih xs)

/-- Appending a fresh key makes it visible to lookups. -/
lemma lookup_append_single (k : String) (j : BatchJob) :
    ∀ l : List (String × BatchJob), l.lookup k = none →
      (l ++ [(k, j)]).lookup k = some j := by
  intro l
  induction l with
  | nil =>
      intro _
      have hb : (k == k) = true := beq_self_eq_true k
      rw [List.nil_append, List.lookup, hb]
  | cons kv rest ih =>
      intro hnone
      obtain ⟨k', v⟩ := kv
      by_cases hk : k = k'
      · rw [List.lookup, beq_iff_eq.mpr hk] at hnone
        simp at hnone
      · have hb : (k == k') = false := beq_eq_false_iff_ne.mpr hk
        rw [List.lookup, hb] at hnone
        rw [List.cons_append, List.lookup, hb]
        exact ih hnone

/-- Admission content shared by C3's theorem and counterexample: a positive
area is the only gate `add_batch_jobs` applies before queueing. -/
lemma batch_admit_single (s : QueueState) (id : String)
    (r : MapGenerationRequest) (p : Int)
    (hpos : 0 < area_km2 r.bbox)
    (hroom : s.queue.length < s.maxQueueSize)
    (hfresh : s.jobs.lookup id = none) :
    ∃ s' job, add_job s id r r.name p = .ok (s', job) ∧
      add_batch_jobs s [(id, r)] p = .ok (s', [id]) ∧
      id ∈ s'.queue ∧
      (s'.jobs.lookup id).map (fun j => j.status) = some .pending := by
  have hnotfull : ¬ (s.maxQueueSize ≤ s.queue.length) := not_le.mpr hroom
  have hone : ¬ (s.maxQueueSize < ([(id, r)] : List (String × MapGenerationRequest)).length) := by
    simp only [List.length_singleton]
    omega
  have hnotdeg : ¬ (area_km2 r.bbox ≤ 0) := not_le.mpr hpos
  simp only [add_job, if_neg hnotfull]
  refine ⟨_, _, rfl, ?_, ?_, ?_⟩
  · simp only [add_batch_jobs, List.isEmpty_cons, Bool.false_eq_true, if_false,
      if_neg hone, List.foldl_cons, List.foldl_nil, if_neg hnotdeg, add_job,
      if_neg hnotfull, List.nil_append]
  · exact mem_insertAt id _ _
  · rw [lookup_append_single id _ s.jobs hfresh]
    rfl

/-- C3 (amended): batch submit (`add_batch_jobs`) performs only the degenerate
check `area_km2 ≤ 0` before queueing — it never compares the area against the
configured maximum and never inspects the bbox invariant, so any request with
a positive area (for a fresh id, with room in the queue) enters the queue as a
`pending` job at submit; the maximum-area validation runs only later, inside
`generate_terrain`, after the job has occupied a queue slot (see the
counterexample for an oversized and a malformed request both being
admitted). -/
theorem add_batch_jobs_admits_positive_area (s : QueueState) (id : String)
    (r : MapGenerationRequest) (p : Int)
    (hpos : 0 < area_km2 r.bbox)
    (hroom : s.queue.length < s.maxQueueSize)
    (hfresh : s.jobs.lookup id = none) :
    ∃ s' job, add_job s id r r.name p = .ok (s', job) ∧
      add_batch_jobs s [(id, r)] p = .ok (s', [id]) ∧
      id ∈ s'.queue ∧
      (s'.jobs.lookup id).map (fun j => j.status) = some .pending :=
  batch_admit_single s id r p hpos hroom hfresh

/-- Witness for C3's amended theorem: the oversized request is admitted. -/
theorem add_batch_jobs_admits_positive_area_witness :
    0 < area_km2 bigReq.bbox ∧
    (∃ s' job, add_job (initQueue 3 50) "jid" bigReq bigReq.name 0 = .ok (s', job) ∧
      add_batch_jobs (initQueue 3 50) [("jid", bigReq)] 0 = .ok (s', ["jid"]) ∧
      "jid" ∈ s'.queue ∧
      (s'.jobs.lookup "jid").map (fun j => j.status) = some .pending) :=
  ⟨by have := area_km2_bigBBox; exact lt_trans (by norm_num) this,
    add_batch_jobs_admits_positive_area (initQueue 3 50) "jid" bigReq 0
      (by have := area_km2_bigBBox; exact lt_trans (by norm_num) this)
      (by decide) (by decide)⟩


/-- Counterexample to C3 as stated: the 2° × 2° request has area > 100 km²
(the configured `max_area_km2`), yet `add_batch_jobs` admits it into the queue
as `pending`; its mirrored variant violates the `north > south` bbox invariant
and is admitted all the same; the area error surfaces only when
`generate_terrain` later processes the job (status `failed`), not at
submit. -/
theorem oversized_and_malformed_requests_enter_queue :
    100 < area_km2 bigReq.bbox ∧
    max_area_km2 = 100 ∧
    (∃ s' job, add_batch_jobs (initQueue 3 50) [("jid", bigReq)] 0 = .ok (s', [job]) ∧
      (s'.jobs.lookup "jid").map (fun j => j.status) = some .pending) ∧
    mirrorReq.bbox.south > mirrorReq.bbox.north ∧
    0 < area_km2 mirrorReq.bbox ∧
    (∃ s' job, add_batch_jobs (initQueue 3 50) [("mid", mirrorReq)] 0 = .ok (s', [job]) ∧
      (s'.jobs.lookup "mid").map (fun j => j.status) = some .pending) ∧
    (generate_terrain exEnv bigReq).status = "failed" := by
  have hbig : 100 < area_km2 bigReq.bbox := area_km2_bigBBox
  have hmirror : 0 < area_km2 mirrorReq.bbox := by
    have heq : area_km2 mirrorReq.bbox = area_km2 bigBBox := area_km2_swapNorthSouth bigBBox
    rw [heq]
    exact lt_trans (by norm_num) hbig
  refine ⟨hbig, rfl, ?_, by decide, hmirror, ?_, ?_⟩
  · obtain ⟨s', job, h1, h2, h3, h4⟩ :=
      add_batch_jobs_admits_positive_area (initQueue 3 50) "jid" bigReq 0
        (lt_trans (by norm_num) hbig) (by decide) (by decide)
    exact ⟨s', "jid", h2, h4⟩
  · obtain ⟨s', job, h1, h2, h3, h4⟩ :=
      add_batch_jobs_admits_positive_area (initQueue 3 50) "mid" mirrorReq 0
        hmirror (by decide) (by decide)
    exact ⟨s', "mid", h2, h4⟩
  · have hcond : max_area_km2 < area_km2 bigReq.bbox := by
      rw [show max_area_km2 = (100 : ℝ) from rfl]
      exact hbig
    simp only [generate_terrain, if_pos hcond]

/-- If any name on the priority list is among the configured sources, the
elevation fallback walk invokes at least one source. -/
lemma elev_trace_nonempty (env : SourceEnv) :
    ∀ (priority : List String) (name : String), name ∈ priority →
      env.present.contains name = true →
      (get_elevation_data env priority).2 ≠ [] := by
  intro priority
  induction priority with
  | nil => intro name h; simp at h
  | cons p rest ih =>
      intro name hmem hpresent
      by_cases hp : env.present.contains p = true
      · simp only [get_elevation_data, hp, if_true]
        rcases env.isAvailable p with _ | b
        · simp
        · cases b
          · simp
          · rcases env.getElevation p with _ | d
            · simp
            · rcases d with _ | d'
              · simp
              · simp
      · have hname : name ∈ rest := by
          rcases List.mem_cons.mp hmem with h | h
          · subst h
            exact absurd hpresent hp
          · exact h
        simp only [get_elevation_data, hp, if_false]
        exact ih name hname hpresent

/-- The area term is bounded by the coordinate box times the squared scale
(the cosine factor has magnitude at most one). -/
lemma area_km2_le (b : BoundingBox) :
    area_km2 b ≤ |((b.north : ℝ) - b.south) * ((b.east : ℝ) - b.west)| *
      (111.32 * 111.32) := by
  unfold area_km2
  rw [abs_mul, abs_mul, abs_mul]
  have hk : |(111.32 : ℝ)| = 111.32 := abs_of_pos (by norm_num)
  rw [hk]
  have hcos := Real.abs_cos_le_one
    (((b.north : ℝ) + (b.south : ℝ)) / 2 * Real.pi / 180)
  have habs := abs_nonneg (((b.north : ℝ) - (b.south : ℝ)) * ((b.east : ℝ) - (b.west : ℝ)))
  nlinarith [abs_nonneg (Real.cos (((b.north : ℝ) + (b.south : ℝ)) / 2 * Real.pi / 180))]

/-- The 0.01° × 0.01° box stays well under the 100 km² bound. -/
lemma area_exBBox_ok : ¬ (max_area_km2 < area_km2 exBBox) := by
  have h := area_km2_le exBBox
  have hbound : |((exBBox.north : ℝ) - exBBox.south) * ((exBBox.east : ℝ) - exBBox.west)| *
      (111.32 * 111.32) ≤ 100 := by
    unfold exBBox
    push_cast
    rw [abs_of_nonneg (by norm_num)]
    norm_num
  rw [show max_area_km2 = (100 : ℝ) from rfl]
  exact not_lt.mpr (h.trans hbound)

/-- C2 (amended): the generation pipeline holds no cache state and performs no
cache lookup — `generate_terrain` is a pure function of the source environment
and the request — so a second submission of an identical completed request
re-runs the same computation: whenever any source on the elevation priority
list is configured, every run (first or repeated) invokes at least one data
source, and the run completes without any cached artifact. -/
theorem generate_terrain_reinvokes_sources (env : SourceEnv) (req : MapGenerationRequest)
    (name : String)
    (harea : ¬ (max_area_km2 < area_km2 req.bbox))
    (hname : name ∈ elevation_priority req.elevationSource)
    (hpresent : env.present.contains name = true) :
    (generate_terrain env req).sourceCalls ≠ [] ∧
    (generate_terrain env req).status = "completed" := by
  have htrace := elev_trace_nonempty env (elevation_priority req.elevationSource)
    name hname hpresent
  constructor
  · simp only [generate_terrain, if_neg harea]
    intro hnil
    exact htrace (List.append_eq_nil.mp hnil).1
  · simp only [generate_terrain, if_neg harea]

/-- Witness for C2's amended theorem: with OpenTopography configured, a run of
the small request invokes a source and completes. -/
theorem generate_terrain_reinvokes_sources_witness :
    (generate_terrain exEnv (exReq "W")).sourceCalls ≠ [] ∧
    (generate_terrain exEnv (exReq "W")).status = "completed" :=
  generate_terrain_reinvokes_sources exEnv (exReq "W") "opentopography"
    area_exBBox_ok (by decide) (by decide)

/-- Counterexample to C2 as stated: running the identical request a second
time (the function of `(env, request)` is the same on both runs — no state
links them) still invokes the OpenTopography source and recomputes the
elevation, instead of consulting a cache: the pipeline contains no cache
integration at all. -/
theorem second_identical_run_invokes_sources :
    (generate_terrain exEnv (exReq "run")).sourceCalls = ["opentopography"] ∧
    (generate_terrain exEnv (exReq "run")).status = "completed" ∧
    (generate_terrain exEnv (exReq "run")).elevation
      = some (.fromSource "opentopography" 7) := by
  have harea : ¬ (max_area_km2 < area_km2 (exReq "run").bbox) := area_exBBox_ok
  refine ⟨?_, ?_, ?_⟩ <;>
    · simp only [generate_terrain]
      rw [if_neg harea]
      try rfl

/-- The `.value` strings of the export formats are pairwise distinct. -/
lemma ExportFormat.value_inj : ∀ a b : ExportFormat, a.value = b.value → a = b := by
  intro a b
  cases a <;> cases b <;> decide

/-- `all` never survives the wildcard expansion. -/
lemma all_not_mem_expand (formats : List ExportFormat) :
    ExportFormat.all ∉ expandFormats formats := by
  unfold expandFormats
  by_cases h : formats.contains ExportFormat.all = true
  · rw [if_pos h]
    decide
  · rw [if_neg h]
    intro hmem
    exact h (List.elem_eq_true_of_mem hmem)

/-- Replacing under a key makes it visible to lookups (the key occurs). -/
lemma lookup_map_set (key : String) (e : ExportEntry) :
    ∀ l : List (String × ExportEntry), l.any (fun p => p.1 == key) = true →
      (l.map (fun p => if p.1 = key then (p.1, e) else p)).lookup key = some e := by
  intro l
  induction l with
  | nil => intro h; simp at h
  | cons kv rest ih =>
      intro h
      obtain ⟨k, v⟩ := kv
      by_cases hk : k = key
      · subst hk
        have hhead : ((k, v).1 = k) = True := by simp
        simp only [List.map_cons, hhead, if_true]
        have hb : (k == k) = true := beq_self_eq_true k
        rw [List.lookup, hb]
      · have hhead : ¬ ((k, v).1 = key) := hk
        simp only [List.map_cons, if_neg hhead]
        have hb : (key == k) = false := beq_eq_false_iff_ne.mpr (fun hc => hk hc.symm)
        rw [List.lookup, hb]
        apply ih
        simp only [List.any_cons] at h
        have hbk : (k == key) = false := beq_eq_false_iff_ne.mpr hk
        rw [hbk] at h
        simpa using h

/-- Replacing under one key leaves other lookups unchanged. -/
lemma lookup_map_set_other (key key' : String) (e : ExportEntry) (hne : key' ≠ key) :
    ∀ l : List (String × ExportEntry),
      (l.map (fun p => if p.1 = key then (p.1, e) else p)).lookup key' = l.lookup key' := by
  intro l
  induction l with
  | nil => rfl
  | cons kv rest ih =>
      obtain ⟨k, v⟩ := kv
      by_cases hk : k = key
      · have hhead : ((k, v).1 = key) := hk
        simp only [List.map_cons, if_pos hhead]
        have hb : (key' == k) = false :=
          beq_eq_false_iff_ne.mpr (fun hc => hne (hc.trans hk))
        rw [List.lookup, hb, List.lookup, hb]
        exact ih
      · have hhead : ¬ ((k, v).1 = key) := hk
        simp only [List.map_cons, if_neg hhead]
        by_cases hk' : key' = k
        · have hb : (key' == k) = true := beq_iff_eq.mpr hk'
          rw [List.lookup, hb, List.lookup, hb]
        · have hb : (key' == k) = false := beq_eq_false_iff_ne.mpr hk'
          rw [List.lookup, hb, List.lookup, hb]
          exact ih

/-- Appending a key absent from the dict makes it visible to lookups. -/
lemma lookup_append_fresh (key : String) (e : ExportEntry) :
    ∀ l : List (String × ExportEntry), l.any (fun p => p.1 == key) = false →
      (l ++ [(key, e)]).lookup key = some e := by
  intro l
  induction l with
  | nil =>
      intro _
      have hb : (key == key) = true := beq_self_eq_true key
      rw [List.nil_append, List.lookup, hb]
  | cons kv rest ih =>
      intro h
      obtain ⟨k, v⟩ := kv
      simp only [List.any_cons, Bool.or_eq_false_iff] at h
      have hb : (key == k) = false := by
        rcases Bool.eq_false_iff.mp h.1 with _
        by_cases hk : key = k
        · exact absurd (beq_iff_eq.mpr hk.symm) (by rw [h.1]; exact Bool.false_ne_true)
        · exact beq_eq_false_iff_ne.mpr hk
      rw [List.cons_append, List.lookup, hb]
      exact ih h.2

/-- Appending an entry under a different key leaves other lookups alone. -/
lemma lookup_append_other (key key' : String) (e : ExportEntry) (hne : key' ≠ key) :
    ∀ l : List (String × ExportEntry), (l ++ [(key, e)]).lookup key' = l.lookup key' := by
  intro l
  induction l with
  | nil =>
      have hb : (key' == key) = false := beq_eq_false_iff_ne.mpr hne
      rw [List.nil_append]
      simp only [List.lookup, hb]
  | cons kv rest ih =>
      obtain ⟨k, v⟩ := kv
      by_cases hk' : key' = k
      · have hb : (key' == k) = true := beq_iff_eq.mpr hk'
        rw [List.cons_append, List.lookup, hb, List.lookup, hb]
      · have hb : (key' == k) = false := beq_eq_false_iff_ne.mpr hk'
        rw [List.cons_append, List.lookup, hb, List.lookup, hb]
        exact ih

/-- A dict assignment makes its entry visible. -/
lemma lookup_upsertResult_self (key : String) (e : ExportEntry)
    (l : List (String × ExportEntry)) :
    (upsertResult l key e).lookup key = some e := by
  by_cases hany : l.any (fun p => p.1 == key) = true
  · rw [upsertResult, if_pos hany]
    exact lookup_map_set key e l hany
  · rw [upsertResult, if_neg hany]
    exact lookup_append_fresh key e l (Bool.of_not_eq_true hany)

/-- A dict assignment leaves other keys' lookups unchanged. -/
lemma lookup_upsertResult_other (key key' : String) (e : ExportEntry) (hne : key' ≠ key)
    (l : List (String × ExportEntry)) :
    (upsertResult l key e).lookup key' = l.lookup key' := by
  by_cases hany : l.any (fun p => p.1 == key) = true
  · rw [upsertResult, if_pos hany]
    exact lookup_map_set_other key key' e hne l
  · rw [upsertResult, if_neg hany]
    exact lookup_append_other key key' e hne l

/-- One loop iteration on a format's own turn records exactly the outcome of
its exporter run. -/
lemma exportStep_sets (outcome : ExportFormat → Except String (List String))
    (outputDir : String) (acc : List (String × ExportEntry)) (fmt : ExportFormat)
    (hobj : fmt ≠ .obj) (hall : fmt ≠ .all) :
    (exportStep outcome outputDir acc fmt).lookup fmt.value =
      some (match outcome fmt with
            | .ok fs => ExportEntry.files fs (outputDir ++ "/" ++ fmt.value)
            | .error e => ExportEntry.error e) := by
  cases fmt with
  | obj => exact absurd rfl hobj
  | all => exact absurd rfl hall
  | unreal5 =>
      cases houtcome : outcome ExportFormat.unreal5 with
      | ok fs => simp only [exportStep, houtcome]; exact lookup_upsertResult_self _ _ _
      | error e => simp only [exportStep, houtcome]; exact lookup_upsertResult_self _ _ _
  | unity =>
      cases houtcome : outcome ExportFormat.unity with
      | ok fs => simp only [exportStep, houtcome]; exact lookup_upsertResult_self _ _ _
      | error e => simp only [exportStep, houtcome]; exact lookup_upsertResult_self _ _ _
  | gltf =>
      cases houtcome : outcome ExportFormat.gltf with
      | ok fs => simp only [exportStep, houtcome]; exact lookup_upsertResult_self _ _ _
      | error e => simp only [exportStep, houtcome]; exact lookup_upsertResult_self _ _ _
  | geotiff =>
      cases houtcome : outcome ExportFormat.geotiff with
      | ok fs => simp only [exportStep, houtcome]; exact lookup_upsertResult_self _ _ _
      | error e => simp only [exportStep, houtcome]; exact lookup_upsertResult_self _ _ _

/-- A loop iteration for a *different* format never disturbs this format's
manifest entry — the per-format isolation of `_export_terrain`. -/
lemma exportStep_preserves (outcome : ExportFormat → Except String (List String))
    (outputDir : String) (acc : List (String × ExportEntry)) (fmt g : ExportFormat)
    (hne : fmt ≠ g) :
    (exportStep outcome outputDir acc g).lookup fmt.value = acc.lookup fmt.value := by
  have hval : fmt.value ≠ g.value := fun h => hne (ExportFormat.value_inj fmt g h)
  cases g with
  | obj => rfl
  | all => rfl
  | unreal5 =>
      cases houtcome : outcome ExportFormat.unreal5 with
      | ok fs =>
          simp only [exportStep, houtcome]
          exact lookup_upsertResult_other _ _ _ hval acc
      | error e =>
          simp only [exportStep, houtcome]
          exact lookup_upsertResult_other _ _ _ hval acc
  | unity =>
      cases houtcome : outcome ExportFormat.unity with
      | ok fs =>
          simp only [exportStep, houtcome]
          exact lookup_upsertResult_other _ _ _ hval acc
      | error e =>
          simp only [exportStep, houtcome]
          exact lookup_upsertResult_other _ _ _ hval acc
  | gltf =>
      cases houtcome : outcome ExportFormat.gltf with
      | ok fs =>
          simp only [exportStep, houtcome]
          exact lookup_upsertResult_other _ _ _ hval acc
      | error e =>
          simp only [exportStep, houtcome]
          exact lookup_upsertResult_other _ _ _ hval acc
  | geotiff =>
      cases houtcome : outcome ExportFormat.geotiff with
      | ok fs =>
          simp only [exportStep, houtcome]
          exact lookup_upsertResult_other _ _ _ hval acc
      | error e =>
          simp only [exportStep, houtcome]
          exact lookup_upsertResult_other _ _ _ hval acc

/-- Folding the export loop over any format list delivers each non-`obj`,
non-`all` member's entry, whatever the other exporters do. -/
lemma foldl_exportStep_lookup (outcome : ExportFormat → Except String (List String))
    (outputDir : String) (fmt : ExportFormat) (hobj : fmt ≠ .obj) (hall : fmt ≠ .all) :
    ∀ (l : List ExportFormat) (acc : List (String × ExportEntry)),
      (fmt ∈ l ∨ acc.lookup fmt.value =
        some (match outcome fmt with
              | .ok fs => ExportEntry.files fs (outputDir ++ "/" ++ fmt.value)
              | .error e => ExportEntry.error e)) →
      (l.foldl (exportStep outcome outputDir) acc).lookup fmt.value =
        some (match outcome fmt with
              | .ok fs => ExportEntry.files fs (outputDir ++ "/" ++ fmt.value)
              | .error e => ExportEntry.error e) := by
  intro l
  induction l with
  | nil =>
      intro acc h
      rcases h with h | h
      · simp at h
      · simpa using h
  | cons g rest ih =>
      intro acc h
      rw [List.foldl_cons]
      by_cases hg : fmt = g
      · subst hg
        exact ih _ (Or.inr (exportStep_sets outcome outputDir acc fmt hobj hall))
      · rcases h with h | h
        · rcases List.mem_cons.mp h with h' | h'
          · exact absurd h' hg
          · exact ih _ (Or.inl h')
        · refine ih _ (Or.inr ?_)
          rw [exportStep_preserves outcome outputDir acc fmt g hg]
          exact h

/-- C6 (amended): for every requested format other than `obj` (with the `all`
wildcard expanded to {unreal5, unity, gltf, geotiff} — an expansion that does
not include `obj`), the returned manifest contains an entry for that format —
a files entry on success, an error entry on failure — and one exporter raising
never prevents the other formats from being exported (the statement holds for
every behaviour of the other exporters); a requested `obj` format, however, is
silently skipped: the loop has no branch for it, and no entry is recorded
(see the counterexample). -/
theorem export_terrain_manifest_covers (outcome : ExportFormat → Except String (List String))
    (outputDir : String) (formats : List ExportFormat) (fmt : ExportFormat)
    (hmem : fmt ∈ expandFormats formats) (hobj : fmt ≠ .obj) :
    (export_terrain outcome outputDir formats).lookup fmt.value =
      some (match outcome fmt with
            | .ok fs => ExportEntry.files fs (outputDir ++ "/" ++ fmt.value)
            | .error e => ExportEntry.error e) := by
  have hall : fmt ≠ .all := by
    intro h
    rw [h] at hmem
    exact all_not_mem_expand formats hmem
  exact foldl_exportStep_lookup outcome outputDir fmt hobj hall
    (expandFormats formats) [] (Or.inl hmem)

/-- Witness for C6's amended theorem: the spec's isolation example — `unity`
raises during `[unreal5, unity, gltf]`, the other two still export. -/
theorem export_terrain_manifest_covers_witness :
    (export_terrain exOutcome "out" [.unreal5, .unity, .gltf]).lookup "unity"
      = some (.error "unity boom") ∧
    (export_terrain exOutcome "out" [.unreal5, .unity, .gltf]).lookup "unreal5"
      = some (.files ["f"] "out/unreal5") ∧
    (export_terrain exOutcome "out" [.unreal5, .unity, .gltf]).lookup "gltf"
      = some (.files ["f"] "out/gltf") :=
  ⟨export_terrain_manifest_covers exOutcome "out" [.unreal5, .unity, .gltf] .unity
      (by decide) (by decide),
    export_terrain_manifest_covers exOutcome "out" [.unreal5, .unity, .gltf] .unreal5
      (by decide) (by decide),
    export_terrain_manifest_covers exOutcome "out" [.unreal5, .unity, .gltf] .gltf
      (by decide) (by decide)⟩

/-- Counterexample to C6 as stated: requesting `[unreal5, obj]` with every
exporter succeeding yields a manifest whose only entry is `unreal5` — the
requested `obj` format gets neither a files entry nor an error entry. -/
theorem export_terrain_skips_obj :
    export_terrain (fun _ => .ok ["hm.png"]) "out" [.unreal5, .obj]
      = [("unreal5", .files ["hm.png"] "out/unreal5")] ∧
    (export_terrain (fun _ => .ok ["hm.png"]) "out" [.unreal5, .obj]).lookup "obj"
      = none :=
  ⟨by decide, by decide⟩

/-- C9 (amended): the synthetic fallback terrain is deterministic only *given
the drawn noise grid*: two invocations with the same resolution produce
identical elevation arrays exactly when the values drawn from NumPy's global
generator coincide.  The generator accepts no seed parameter, and
`np.random.randn` draws from the unseeded global RNG, so successive
invocations generally receive different noise and produce different arrays
(see the counterexample). -/
theorem generate_synthetic_terrain_deterministic_given_noise (res : ℕ)
    (noise₁ noise₂ : ℕ → ℕ → ℝ) (h : ∀ i j, noise₁ i j = noise₂ i j) :
    ∀ i j, generate_synthetic_terrain res noise₁ i j
      = generate_synthetic_terrain res noise₂ i j := by
  have hfun : noise₁ = noise₂ := funext (fun i => funext (fun j => h i j))
  rw [hfun]
  intro i j
  rfl

/-- Witness for C9's amended theorem at resolution 2 with the zero draw. -/
theorem generate_synthetic_terrain_deterministic_given_noise_witness :
    generate_synthetic_terrain 2 noiseZero 0 0 = generate_synthetic_terrain 2 noiseZero 0 0 :=
  generate_synthetic_terrain_deterministic_given_noise 2 noiseZero noiseZero
    (fun _ _ => rfl) 0 0

/-- Counterexample to C9 as stated: two invocations at the same resolution 2
whose global-RNG draws differ in a single cell produce different elevation
arrays (the per-cell differences survive the `Z - Z.min() + 100` shift), so
the fallback is not deterministic across invocations — there is no seed. -/
theorem generate_synthetic_terrain_not_invocation_deterministic :
    ¬ (∀ i j, generate_synthetic_terrain 2 noiseBump i j
        = generate_synthetic_terrain 2 noiseZero i j) := by
  intro h
  have h00 := h 0 0
  have h01 := h 0 1
  unfold generate_synthetic_terrain at h00 h01
  have e1 : syntheticRaw 2 noiseBump 0 0 = syntheticBase 2 0 0 + 10 := by
    unfold syntheticRaw noiseBump
    norm_num
  have e2 : syntheticRaw 2 noiseBump 0 1 = syntheticBase 2 0 1 := by
    unfold syntheticRaw noiseBump
    norm_num
  have e3 : syntheticRaw 2 noiseZero 0 0 = syntheticBase 2 0 0 := by
    unfold syntheticRaw noiseZero
    norm_num
  have e4 : syntheticRaw 2 noiseZero 0 1 = syntheticBase 2 0 1 := by
    unfold syntheticRaw noiseZero
    norm_num
  rw [e1, e3] at h00
  rw [e2, e4] at h01
  linarith
